import Mathlib

/-!
Shallow embedding of the pagination engine of the let-me-paginate repository:
the bounds calculator and fingerprinting utilities
(src/pagination/application/utils/pagination.utils.ts and the private helpers
of src/pagination/core/paginator.core.ts), the TTL-LRU in-memory cache
(src/pagination/infrastructure/cache/memory-cache.service.ts), and the
pagination engine (CorePaginator.paginateNormal / PaginatorService.paginate,
PaginatorService.getAllPages).
Numbers are modelled as mathematical integers; JavaScript 32-bit wrap-around
in the hash functions is made explicit with a reduction modulo 2^32.
-/

namespace LetMePaginate

/-- Reduction of an integer to the signed 32-bit range, the effect of the
JavaScript expression x verbar x (ToInt32). -/
def toInt32 (n : Int) : Int :=
  (n + 2 ^ 31) % 2 ^ 32 - 2 ^ 31

/-- One step of the rolling hash used by hashArray / hashObject:
hash (shl 5) - hash + charCode, followed by the 32-bit truncation. -/
def hashStep (h : Int) (c : Nat) : Int :=
  toInt32 (toInt32 (h * 32) - h + c)

/-- The rolling hash over the UTF-16 code units of a string (all strings we
hash are ASCII, so code units coincide with code points). -/
def hashString (s : String) : Int :=
  s.data.foldl (fun h ch => hashStep h ch.toNat) 0

/-- Digit character of a base-36 number, 0-9 then lowercase a-z, as produced
by the JavaScript Number.prototype.toString with radix 36. -/
def digit36 (n : Nat) : Char :=
  if n < 10 then Char.ofNat (48 + n) else Char.ofNat (87 + n)

/-- Fuel-indexed base-36 digit expansion; the fuel bounds the number of
digits, and calling it with fuel n is always sufficient. Structural
recursion on the fuel keeps the definition kernel-computable. -/
def toBase36Go : Nat → Nat → List Char → List Char
  | 0, n, acc => digit36 (n % 36) :: acc
  | fuel + 1, n, acc =>
    if n < 36 then digit36 n :: acc
    else toBase36Go fuel (n / 36) (digit36 (n % 36) :: acc)

/-- Base-36 rendering of a natural number, matching toString (radix 36). -/
def toBase36 (n : Nat) : String :=
  String.mk (toBase36Go n n [])

/-- Math.abs of the rolling hash followed by toString (radix 36): the final
step of hashArray and hashObject. -/
def jsHash (s : String) : String :=
  toBase36 (hashString s).natAbs

/-- JSON-like values, the data elements the engine paginates and serializes
with JSON.stringify when fingerprinting. -/
inductive JVal where
  | null : JVal
  | bool (b : Bool) : JVal
  | num (n : Int) : JVal
  | str (s : String) : JVal
  | arr (xs : List JVal) : JVal

/-- Escape of one character inside a JSON string literal, as JSON.stringify
performs it (quote, backslash, and control characters). -/
def escapeJsonChar (ch : Char) : String :=
  if ch.toNat = 34 then String.mk [Char.ofNat 92, Char.ofNat 34]
  else if ch.toNat = 92 then String.mk [Char.ofNat 92, Char.ofNat 92]
  else if ch.toNat = 8 then "\\b"
  else if ch.toNat = 9 then "\\t"
  else if ch.toNat = 10 then "\\n"
  else if ch.toNat = 12 then "\\f"
  else if ch.toNat = 13 then "\\r"
  else if ch.toNat < 32 then
    "\\u00" ++ String.mk [digit36 (ch.toNat / 16), digit36 (ch.toNat % 16)]
  else String.singleton ch

/-- Serialization of a JSON string body with escapes. -/
def escapeJson (s : String) : String :=
  String.join (s.data.map escapeJsonChar)

mutual

/-- JSON.stringify of a single value. -/
def jsonStringify : JVal → String
  | .null => "null"
  | .bool b => if b then "true" else "false"
  | .num n => toString n
  | .str s => "\"" ++ escapeJson s ++ "\""
  | .arr xs => "[" ++ jsonStringifyList xs ++ "]"

/-- Comma-separated serialization of the elements of a JSON array. -/
def jsonStringifyList : List JVal → String
  | [] => ""
  | [x] => jsonStringify x
  | x :: y :: xs => jsonStringify x ++ "," ++ jsonStringifyList (y :: xs)

end

/-- Normalized pagination configuration: the record produced by
CorePaginator.normalizeConfig and consumed by paginateNormal and by
PaginatorService.paginate. Absent optional fields are the JavaScript
undefined. -/
structure PaginationConfig where
  page : Int
  pageSize : Int
  maxPageSize : Option Int := none
  enableCache : Option Bool := none
  cacheTtl : Option Int := none
deriving DecidableEq

/-- Caller-facing extended configuration of CorePaginator.paginate, where
page and pageSize may be absent. -/
structure ExtendedPaginationConfig where
  page : Option Int := none
  pageSize : Option Int := none
  maxPageSize : Option Int := none
  enableCache : Option Bool := none
  cacheTtl : Option Int := none
deriving DecidableEq

/-- CorePaginator.normalizeConfig: page and pageSize default to 1 and 10 when
absent or JavaScript-falsy (0); the remaining fields pass through. -/
def normalizeConfig (c : ExtendedPaginationConfig) : PaginationConfig :=
  { page := match c.page with
      | none => 1
      | some p => if p = 0 then 1 else p
    pageSize := match c.pageSize with
      | none => 10
      | some s => if s = 0 then 10 else s
    maxPageSize := c.maxPageSize
    enableCache := c.enableCache
    cacheTtl := c.cacheTtl }

/-- PaginationUtils.calculateTotalPages: 0 on non-positive inputs, otherwise
Math.ceil of totalItems / pageSize, rendered for positive integers by the
exact integer ceiling division (totalItems + pageSize - 1) / pageSize; the
theorem calculateTotalPages_eq_ceil establishes that this coincides with the
mathematical ceiling of the true quotient. -/
def calculateTotalPages (totalItems pageSize : Int) : Int :=
  if totalItems ≤ 0 ∨ pageSize ≤ 0 then 0
  else (totalItems + pageSize - 1) / pageSize

/-- PaginationUtils.calculateStartIndex: 0 on non-positive inputs, otherwise
(page - 1) * pageSize. -/
def calculateStartIndex (page pageSize : Int) : Int :=
  if page ≤ 0 ∨ pageSize ≤ 0 then 0
  else (page - 1) * pageSize

/-- PaginationUtils.calculateEndIndex: min of startIndex + pageSize and
totalItems. -/
def calculateEndIndex (page pageSize totalItems : Int) : Int :=
  min (calculateStartIndex page pageSize + pageSize) totalItems

/-- PaginationUtils.isValidPage: 1 less-or-equal page less-or-equal totalPages. -/
def isValidPage (page totalPages : Int) : Bool :=
  decide (1 ≤ page ∧ page ≤ totalPages)

/-- Array.prototype.slice with integer end points: negative indices count from
the end, and both bounds are clamped to the array length. -/
def jsSlice {α : Type} (l : List α) (s e : Int) : List α :=
  let n : Int := l.length
  let rel : Int → Int := fun x => if x < 0 then max (n + x) 0 else min x n
  ((l.drop (rel s).toNat).take ((rel e).toNat - (rel s).toNat))

/-- Serialization of the object passed by PaginatorService.generateCacheKey
to hashObject, namely the record with only page and pageSize, with
JSON.stringify keys sorted alphabetically. -/
def stringifyServiceKeyCfg (page pageSize : Int) : String :=
  "\x7b\"page\":" ++ toString page ++ ",\"pageSize\":" ++ toString pageSize ++ "\x7d"

/-- Serialization of the full normalized configuration under JSON.stringify
with the sorted key list cacheTtl, enableCache, maxPageSize, page, pageSize;
fields holding undefined are omitted. -/
def stringifyNormalizedCfg (c : PaginationConfig) : String :=
  let fields : List (Option String) :=
    [ c.cacheTtl.map (fun t => "\"cacheTtl\":" ++ toString t)
    , c.enableCache.map (fun b => "\"enableCache\":" ++ (if b then "true" else "false"))
    , c.maxPageSize.map (fun m => "\"maxPageSize\":" ++ toString m)
    , some ("\"page\":" ++ toString c.page)
    , some ("\"pageSize\":" ++ toString c.pageSize) ]
  "\x7b" ++ String.intercalate "," (fields.filterMap id) ++ "\x7d"

/-- PaginationUtils.hashArray: rolling hash of JSON.stringify of the data
array, absolute value, base 36. -/
def hashArray (data : List JVal) : String :=
  jsHash (jsonStringify (.arr data))

/-- PaginatorService.generateCacheKey: fingerprint of the data and of the
projected record holding only page and pageSize. -/
def serviceGenerateCacheKey (data : List JVal) (c : PaginationConfig) : String :=
  "pagination:" ++ hashArray data ++ ":" ++ jsHash (stringifyServiceKeyCfg c.page c.pageSize)

/-- CorePaginator.generateCacheKey as invoked by paginateNormal: fingerprint
of the data and of the entire normalized configuration object. -/
def coreGenerateCacheKey (data : List JVal) (c : PaginationConfig) : String :=
  "pagination:" ++ hashArray data ++ ":" ++ jsHash (stringifyNormalizedCfg c)

/-- Cache key computed by a CorePaginator.paginate call for a given caller
configuration: normalizeConfig followed by generateCacheKey. -/
def coreCacheKeyOfCall (data : List JVal) (c : ExtendedPaginationConfig) : String :=
  coreGenerateCacheKey data (normalizeConfig c)

/-- One stored cache entry, as in CacheEntry of cache.interface.ts. -/
structure CacheEntry (V : Type) where
  value : V
  expiresAt : Int
  createdAt : Int
deriving DecidableEq

/-- State of MemoryCacheService: the entry map, the recency map, and the
monotone access counter. JavaScript Map iteration order is insertion order,
modelled by association lists. -/
structure CacheState (V : Type) where
  cache : List (String × CacheEntry V)
  accessOrder : List (String × Int)
  accessCounter : Int
deriving DecidableEq

/-- The state of a freshly constructed MemoryCacheService. -/
def emptyCache {V : Type} : CacheState V :=
  ⟨[], [], 0⟩

/-- Map.prototype.get on an association list. -/
def mapGet {V : Type} (m : List (String × V)) (k : String) : Option V :=
  match m with
  | [] => none
  | (k1, v1) :: rest => if k1 = k then some v1 else mapGet rest k

/-- Map.prototype.set: overwrite in place when the key is present (keeping
its position in iteration order), append otherwise. -/
def mapSet {V : Type} (m : List (String × V)) (k : String) (v : V) : List (String × V) :=
  match m with
  | [] => [(k, v)]
  | (k1, v1) :: rest => if k1 = k then (k, v) :: rest else (k1, v1) :: mapSet rest k v

/-- Map.prototype.delete: remove the entry with the given key. -/
def mapDelete {V : Type} (m : List (String × V)) (k : String) : List (String × V) :=
  m.filter (fun p => p.1 ≠ k)

/-- MemoryCacheService.delete: drop the key from both maps. -/
def cacheDelete {V : Type} (s : CacheState V) (key : String) : CacheState V :=
  { s with cache := mapDelete s.cache key, accessOrder := mapDelete s.accessOrder key }

/-- MemoryCacheService.clear: drop everything and reset the counter. -/
def cacheClear {V : Type} (_ : CacheState V) : CacheState V :=
  emptyCache

/-- MemoryCacheService.get at time now: lazy expiry (a strictly expired entry
is deleted and reported absent), recency bump on success. Returns the value
and the new state. -/
def cacheGet {V : Type} (s : CacheState V) (key : String) (now : Int) :
    Option V × CacheState V :=
  match mapGet s.cache key with
  | none => (none, s)
  | some e =>
    if e.expiresAt < now then (none, cacheDelete s key)
    else (some e.value,
      { s with accessOrder := mapSet s.accessOrder key (s.accessCounter + 1),
               accessCounter := s.accessCounter + 1 })

/-- The scan of evictLeastRecentlyUsed over accessOrder.entries, carrying the
best candidate; the initial lruAccess is Infinity, modelled by the none
accumulator, which any finite counter beats. -/
def scanLRU : List (String × Int) → Option (String × Int) → Option (String × Int)
  | [], best => best
  | (k, a) :: rest, best =>
    match best with
    | none => scanLRU rest (some (k, a))
    | some (bk, ba) => if a < ba then scanLRU rest (some (k, a)) else scanLRU rest (some (bk, ba))

/-- MemoryCacheService.evictLeastRecentlyUsed. The final guard is the
JavaScript truthiness test if (lruKey): an empty-string key is falsy, so in
that case nothing is deleted. -/
def evictLeastRecentlyUsed {V : Type} (s : CacheState V) : CacheState V :=
  if s.accessOrder.isEmpty then s
  else
    match scanLRU s.accessOrder none with
    | none => s
    | some (lruKey, _) => if lruKey = "" then s else cacheDelete s lruKey

/-- MemoryCacheService.set at time now with the service configured with
maxSize ms (none when the constructor received no maxSize). The capacity
test reproduces the truthiness guard this.config.maxSize and the raw
Map.prototype.has test on the entry map. -/
def cacheSet {V : Type} (s : CacheState V) (key : String) (v : V) (ttl : Int) (now : Int)
    (ms : Option Int) : CacheState V :=
  let entry : CacheEntry V := ⟨v, now + ttl, now⟩
  let s1 :=
    match ms with
    | none => s
    | some m =>
      if m ≠ 0 ∧ (s.cache.length : Int) ≥ m ∧ (mapGet s.cache key).isNone = true then
        evictLeastRecentlyUsed s
      else s
  { cache := mapSet s1.cache key entry,
    accessOrder := mapSet s1.accessOrder key (s1.accessCounter + 1),
    accessCounter := s1.accessCounter + 1 }

/-- MemoryCacheService.has at time now: like get it deletes a strictly
expired entry, but it never bumps recency. -/
def cacheHas {V : Type} (s : CacheState V) (key : String) (now : Int) :
    Bool × CacheState V :=
  match mapGet s.cache key with
  | none => (false, s)
  | some e => if e.expiresAt < now then (false, cacheDelete s key) else (true, s)

/-- MemoryCacheService.cleanupExpired at time now: collect the strictly
expired keys, delete each, return how many. -/
def cleanupExpired {V : Type} (s : CacheState V) (now : Int) : Nat × CacheState V :=
  let expiredKeys := (s.cache.filter (fun p => p.2.expiresAt < now)).map Prod.fst
  (expiredKeys.length, expiredKeys.foldl cacheDelete s)

/-- One public operation on the cache service, tagged with the time at which
it is invoked. -/
inductive CacheOp (V : Type) where
  | get (key : String) (now : Int)
  | set (key : String) (v : V) (ttl : Int) (now : Int)
  | del (key : String)
  | clear
  | has (key : String) (now : Int)
  | cleanup (now : Int)
deriving DecidableEq

/-- State transition of one operation (outputs discarded). -/
def applyOp {V : Type} (ms : Option Int) (s : CacheState V) : CacheOp V → CacheState V
  | .get key now => (cacheGet s key now).2
  | .set key v ttl now => cacheSet s key v ttl now ms
  | .del key => cacheDelete s key
  | .clear => cacheClear s
  | .has key now => (cacheHas s key now).2
  | .cleanup now => (cleanupExpired s now).2

/-- Run a sequence of operations from the freshly constructed service. -/
def runOps {V : Type} (ms : Option Int) (ops : List (CacheOp V)) : CacheState V :=
  ops.foldl (applyOp ms) emptyCache

/-- Insert a list of keys in order with a common value, ttl and time, as the
C5 scenario of the spec does. -/
def insertAll {V : Type} (ks : List String) (v : V) (ttl now : Int) (ms : Option Int)
    (s : CacheState V) : CacheState V :=
  ks.foldl (fun st k => cacheSet st k v ttl now ms) s

/-- The exception taxonomy of pagination.exceptions.ts as a tagged variant.
The pageNotFound payload carries the requested page and the totalPages bound
of the message Valid pages are 1 to totalPages. backendFailure stands for an
exception escaping an injected cache backend. -/
inductive PagError where
  | invalidConfig (msg : String)
  | invalidPageSize (pageSize : Int) (maxPageSize : Option Int)
  | pageNotFound (page totalPages : Int)
  | backendFailure (msg : String)
deriving DecidableEq

/-- PaginationMeta of pagination.interface.ts. -/
structure PaginationMeta where
  currentPage : Int
  pageSize : Int
  totalItems : Int
  totalPages : Int
  hasPrevious : Bool
  hasNext : Bool
  firstItemIndex : Int
  lastItemIndex : Int
deriving DecidableEq

/-- PaginatedResult of pagination.interface.ts. -/
structure PaginatedResult (α : Type) where
  data : List α
  meta : PaginationMeta
  fromCache : Bool
deriving DecidableEq

/-- A pluggable cache backend as seen by the engine (the CacheService
contract restricted to the two operations paginateNormal uses), with an
explicit backend state and the possibility of throwing. -/
structure CacheBackend (α : Type) (σ : Type) where
  get : String → σ → Except String (Option (PaginatedResult α) × σ)
  set : String → PaginatedResult α → Int → σ → Except String σ

/-- The effective maximum page size of validateConfig:
maxPageSize verbar-verbar DEFAULT_MAX_PAGE_SIZE, where absent and 0 are
falsy. -/
def resolvedMaxPageSize (c : PaginationConfig) : Int :=
  match c.maxPageSize with
  | none => 100
  | some m => if m = 0 then 100 else m

/-- The ttl passed to cache.set: cacheTtl verbar-verbar DEFAULT_CACHE_TTL,
where absent and 0 are falsy, so an explicit 0 also selects the 300000 ms
default. -/
def resolvedCacheTtl (c : PaginationConfig) : Int :=
  match c.cacheTtl with
  | none => 300000
  | some t => if t = 0 then 300000 else t

/-- validateConfig of CorePaginator and PaginatorService (the two are
textually identical). Number.isInteger is vacuous in this integer model. -/
def validateConfig (c : PaginationConfig) : Except PagError Unit :=
  if c.page < 1 then .error (.invalidConfig "Page number must be a positive integer")
  else if c.pageSize < 1 then .error (.invalidPageSize c.pageSize none)
  else if c.pageSize > resolvedMaxPageSize c then
    .error (.invalidPageSize c.pageSize (some (resolvedMaxPageSize c)))
  else
    match c.cacheTtl with
    | some t =>
      if t < 0 then .error (.invalidConfig "Cache TTL must be a non-negative integer")
      else .ok ()
    | none => .ok ()

/-- Steps 233 to 258 of paginateNormal: bounds, slice, meta assembly, with
fromCache false. -/
def buildResult {α : Type} (data : List α) (c : PaginationConfig) : PaginatedResult α :=
  let totalItems : Int := data.length
  let totalPages := calculateTotalPages totalItems c.pageSize
  let startIndex := calculateStartIndex c.page c.pageSize
  let endIndex := calculateEndIndex c.page c.pageSize totalItems
  { data := jsSlice data startIndex endIndex
    meta :=
      { currentPage := c.page
        pageSize := c.pageSize
        totalItems := totalItems
        totalPages := totalPages
        hasPrevious := decide (c.page > 1)
        hasNext := decide (c.page < totalPages)
        firstItemIndex := if totalItems > 0 then startIndex + 1 else 0
        lastItemIndex := if totalItems > 0 then endIndex else 0 }
    fromCache := false }

/-- The cache lookup of paginateNormal: performed only when enableCache is
true and a cache service is injected; an exception thrown by get is not
caught there and aborts the call. -/
def cacheLookupStep {α σ : Type} (keyOf : List α → PaginationConfig → String)
    (cs : Option (CacheBackend α σ)) (s : σ) (data : List α) (c : PaginationConfig) :
    Except PagError (Option (PaginatedResult α) × σ) :=
  match cs, c.enableCache with
  | some be, some true =>
    match be.get (keyOf data c) s with
    | .error e => .error (.backendFailure e)
    | .ok (r, s1) => .ok (r, s1)
  | _, _ => .ok (none, s)

/-- The cache store of paginateNormal: a failure of set is caught and only
logged, the freshly computed result is returned regardless. -/
def cacheStoreStep {α σ : Type} (keyOf : List α → PaginationConfig → String)
    (cs : Option (CacheBackend α σ)) (s : σ) (data : List α) (c : PaginationConfig)
    (result : PaginatedResult α) : PaginatedResult α × σ :=
  match cs, c.enableCache with
  | some be, some true =>
    match be.set (keyOf data c) result (resolvedCacheTtl c) s with
    | .error _ => (result, s)
    | .ok s2 => (result, s2)
  | _, _ => (result, s)

/-- CorePaginator.paginateNormal, equally the body of
PaginatorService.paginate: validate, cache lookup, page-existence check,
slice and assemble, cache store. keyOf abstracts generateCacheKey, cs the
optionally injected cache service, s its state. -/
def paginateNormal {α σ : Type} (keyOf : List α → PaginationConfig → String)
    (cs : Option (CacheBackend α σ)) (s : σ) (data : List α) (c : PaginationConfig) :
    Except PagError (PaginatedResult α × σ) :=
  match validateConfig c with
  | .error e => .error e
  | .ok _ =>
    match cacheLookupStep keyOf cs s data c with
    | .error e => .error e
    | .ok (some cached, s1) => .ok ({ cached with fromCache := true }, s1)
    | .ok (none, s1) =>
      let totalPages := calculateTotalPages (data.length : Int) c.pageSize
      if 0 < totalPages ∧ ¬ isValidPage c.page totalPages = true then
        .error (.pageNotFound c.page totalPages)
      else
        .ok (cacheStoreStep keyOf cs s1 data c (buildResult data c))

/-- PaginatorService.paginate for a service with no injected cache backend
(also the behaviour of any call whose configuration leaves caching off). -/
def servicePaginate {α : Type} (data : List α) (c : PaginationConfig) :
    Except PagError (PaginatedResult α) :=
  (paginateNormal (fun _ _ => "") (none : Option (CacheBackend α Unit)) () data c).map Prod.fst

/-- PaginatorService.createConfig with page and pageSize overrides: the
defaults maxPageSize 100, enableCache false, cacheTtl 300000 are filled in. -/
def createConfig (page pageSize : Int) : PaginationConfig :=
  { page := page, pageSize := pageSize, maxPageSize := some 100,
    enableCache := some false, cacheTtl := some 300000 }

/-- The page loop of PaginatorService.getAllPages over the zero-based page
indices, failing fast on the first error. -/
def getAllPagesGo {α : Type} (data : List α) (pageSize : Int) :
    List Nat → Except PagError (List (PaginatedResult α))
  | [] => .ok []
  | i :: rest =>
    match servicePaginate data (createConfig ((i : Int) + 1) pageSize) with
    | .error e => .error e
    | .ok r =>
      match getAllPagesGo data pageSize rest with
      | .error e => .error e
      | .ok rs => .ok (r :: rs)

/-- PaginatorService.getAllPages: one paginate call per page 1..totalPages. -/
def getAllPages {α : Type} (data : List α) (pageSize : Int) :
    Except PagError (List (PaginatedResult α)) :=
  getAllPagesGo data pageSize (List.range (calculateTotalPages (data.length : Int) pageSize).toNat)

/-- The MemoryCacheService model packaged as an engine backend, at a fixed
time now; its operations never throw. -/
def memBackend {α : Type} (ms : Option Int) (now : Int) :
    CacheBackend α (CacheState (PaginatedResult α)) :=
  { get := fun k s => .ok (cacheGet s k now)
    set := fun k v ttl s => .ok (cacheSet s k v ttl now ms) }

/-! Helper lemmas about the bounds calculator. -/

theorem calculateTotalPages_nonpos {n k : Int} (h : n ≤ 0 ∨ k ≤ 0) :
    calculateTotalPages n k = 0 := by
  simp [calculateTotalPages, h]

theorem calculateTotalPages_pos_eq {n k : Int} (hn : 0 < n) (hk : 0 < k) :
    calculateTotalPages n k = (n + k - 1) / k := by
  simp [calculateTotalPages, not_le.mpr hn, not_le.mpr hk]

theorem le_mul_calculateTotalPages {n k : Int} (hn : 0 < n) (hk : 0 < k) :
    n ≤ calculateTotalPages n k * k := by
  rw [calculateTotalPages_pos_eq hn hk]
  have h := Int.ediv_add_emod (n + k - 1) k
  have h2 := Int.emod_nonneg (n + k - 1) (ne_of_gt hk)
  have h3 := Int.emod_lt_of_pos (n + k - 1) hk
  have hc : (n + k - 1) / k * k = k * ((n + k - 1) / k) := mul_comm _ _
  linarith

theorem mul_pred_calculateTotalPages_lt {n k : Int} (hn : 0 < n) (hk : 0 < k) :
    (calculateTotalPages n k - 1) * k < n := by
  rw [calculateTotalPages_pos_eq hn hk]
  have h := Int.ediv_add_emod (n + k - 1) k
  have h2 := Int.emod_nonneg (n + k - 1) (ne_of_gt hk)
  have hc : ((n + k - 1) / k - 1) * k = k * ((n + k - 1) / k) - k := by ring
  linarith

theorem calculateTotalPages_pos {n k : Int} (hn : 0 < n) (hk : 0 < k) :
    0 < calculateTotalPages n k := by
  have h1 := le_mul_calculateTotalPages hn hk
  by_contra hq
  push_neg at hq
  have : calculateTotalPages n k * k ≤ 0 :=
    mul_nonpos_iff.mpr (Or.inr ⟨hq, le_of_lt hk⟩)
  linarith

theorem calculateTotalPages_eq_ceil {n k : Int} (hn : 0 < n) (hk : 0 < k) :
    calculateTotalPages n k = ⌈(n : ℚ) / (k : ℚ)⌉ := by
  have hkq : (0 : ℚ) < (k : ℚ) := by exact_mod_cast hk
  symm
  rw [Int.ceil_eq_iff]
  constructor
  · have h := mul_pred_calculateTotalPages_lt hn hk
    have hq : ((calculateTotalPages n k - 1 : Int) : ℚ) * (k : ℚ) < (n : ℚ) := by
      exact_mod_cast h
    have := (lt_div_iff₀ hkq).mpr hq
    push_cast at this ⊢
    linarith
  · have h := le_mul_calculateTotalPages hn hk
    have hq : (n : ℚ) ≤ ((calculateTotalPages n k : Int) : ℚ) * (k : ℚ) := by
      exact_mod_cast h
    exact (div_le_iff₀ hkq).mpr hq

theorem calculateTotalPages_eq_of {n k r : Int} (hn : 0 < n) (hk : 0 < k)
    (h1 : (r - 1) * k < n) (h2 : n ≤ r * k) : calculateTotalPages n k = r := by
  have a := mul_pred_calculateTotalPages_lt hn hk
  have b := le_mul_calculateTotalPages hn hk
  have c1 : (calculateTotalPages n k - 1) * k < r * k := lt_of_lt_of_le a h2
  have c2 : (r - 1) * k < calculateTotalPages n k * k := lt_of_lt_of_le h1 b
  have d1 := (mul_lt_mul_right hk).mp c1
  have d2 := (mul_lt_mul_right hk).mp c2
  omega

/-- Claim C2: the bounds calculator satisfies its defining equations: total
pages are 0 on non-positive inputs and otherwise the mathematical ceiling of
totalItems / pageSize; the start index is 0 on non-positive inputs and
otherwise (page - 1) * pageSize; the end index is the minimum of
startIndex + pageSize and totalItems. -/
theorem bounds_defining_equations (totalItems pageSize page : Int) :
    ((totalItems ≤ 0 ∨ pageSize ≤ 0) → calculateTotalPages totalItems pageSize = 0)
    ∧ (0 < totalItems → 0 < pageSize →
        calculateTotalPages totalItems pageSize
          = ⌈(totalItems : ℚ) / (pageSize : ℚ)⌉)
    ∧ ((page ≤ 0 ∨ pageSize ≤ 0) → calculateStartIndex page pageSize = 0)
    ∧ (0 < page → 0 < pageSize →
        calculateStartIndex page pageSize = (page - 1) * pageSize)
    ∧ calculateEndIndex page pageSize totalItems
      = min (calculateStartIndex page pageSize + pageSize) totalItems := by
  refine ⟨fun h => calculateTotalPages_nonpos h,
    fun hn hk => calculateTotalPages_eq_ceil hn hk,
    fun h => by simp [calculateStartIndex, h], fun hp hk => by
      simp [calculateStartIndex, not_le.mpr hp, not_le.mpr hk], rfl⟩

/-- Witness for C2 at totalItems 50, pageSize 9, page 6: the ceiling equation
and the start-index equation instantiated and evaluated. -/
theorem bounds_defining_equations_witness :
    calculateTotalPages 50 9 = ⌈(50 : ℚ) / (9 : ℚ)⌉
    ∧ calculateStartIndex 6 9 = (6 - 1) * 9 :=
  ⟨(bounds_defining_equations 50 9 6).2.1 (by norm_num) (by norm_num),
   (bounds_defining_equations 50 9 6).2.2.2.1 (by norm_num) (by norm_num)⟩

/-! Helper lemmas about the engine when no cache backend is injected. -/

@[simp] theorem cacheLookupStep_none {α σ : Type} (keyOf : List α → PaginationConfig → String)
    (s : σ) (data : List α) (c : PaginationConfig) :
    cacheLookupStep keyOf (none : Option (CacheBackend α σ)) s data c = .ok (none, s) := rfl

@[simp] theorem cacheStoreStep_none {α σ : Type} (keyOf : List α → PaginationConfig → String)
    (s : σ) (data : List α) (c : PaginationConfig) (r : PaginatedResult α) :
    cacheStoreStep keyOf (none : Option (CacheBackend α σ)) s data c r = (r, s) := rfl

theorem validateConfig_ok {c : PaginationConfig}
    (h1 : 1 ≤ c.page) (h2 : 1 ≤ c.pageSize) (h3 : c.pageSize ≤ resolvedMaxPageSize c)
    (h4 : ∀ t, c.cacheTtl = some t → 0 ≤ t) :
    validateConfig c = .ok () := by
  unfold validateConfig
  rw [if_neg (by omega), if_neg (by omega), if_neg (by omega)]
  cases hct : c.cacheTtl with
  | none => rfl
  | some t =>
    have ht := h4 t hct
    show (if t < 0 then
        Except.error (PagError.invalidConfig "Cache TTL must be a non-negative integer")
      else Except.ok ()) = Except.ok ()
    rw [if_neg (by omega)]

theorem servicePaginate_eval {α : Type} (data : List α) (c : PaginationConfig)
    (hv : validateConfig c = .ok ()) :
    servicePaginate data c =
      if 0 < calculateTotalPages (data.length : Int) c.pageSize
         ∧ ¬ isValidPage c.page (calculateTotalPages (data.length : Int) c.pageSize) = true
      then .error (.pageNotFound c.page (calculateTotalPages (data.length : Int) c.pageSize))
      else .ok (buildResult data c) := by
  unfold servicePaginate paginateNormal
  simp only [hv, cacheLookupStep_none, cacheStoreStep_none]
  split <;> rfl

theorem servicePaginate_nil_eval {α : Type} (c : PaginationConfig)
    (h1 : 1 ≤ c.page) (h2 : 1 ≤ c.pageSize) (h3 : c.pageSize ≤ resolvedMaxPageSize c)
    (h4 : ∀ t, c.cacheTtl = some t → 0 ≤ t) :
    servicePaginate ([] : List α) c = .ok
      { data := []
        meta := { currentPage := c.page, pageSize := c.pageSize, totalItems := 0,
                  totalPages := 0, hasPrevious := decide (1 < c.page), hasNext := false,
                  firstItemIndex := 0, lastItemIndex := 0 }
        fromCache := false } := by
  rw [servicePaginate_eval ([] : List α) c (validateConfig_ok h1 h2 h3 h4)]
  have htp : calculateTotalPages ((List.length ([] : List α) : Int)) c.pageSize = 0 := by
    simp [calculateTotalPages]
  rw [if_neg (by rw [htp]; simp)]
  congr 1
  have hslice : ∀ s e : Int, jsSlice ([] : List α) s e = [] := by
    intro s e
    simp [jsSlice]
  have htp0 : calculateTotalPages 0 c.pageSize = 0 := by simp [calculateTotalPages]
  simp only [buildResult, hslice, List.length_nil, Nat.cast_zero, htp0,
    PaginatedResult.mk.injEq, PaginationMeta.mk.injEq, true_and, and_true]
  exact ⟨decide_eq_false (by omega), by rw [if_neg (by omega)], by rw [if_neg (by omega)]⟩

/-- Claim C3: for a validated configuration with caching disabled, paginate
fails with the PageNotFound error (carrying the requested page and the
totalPages bound of the reported range 1..totalPages) exactly when totalPages
is positive and the requested page lies outside 1..totalPages; an empty
collection (totalPages 0) instead succeeds with an empty page whose
totalItems, totalPages, firstItemIndex and lastItemIndex are all 0. -/
theorem paginate_page_not_found_iff {α : Type} (data : List α) (c : PaginationConfig)
    (h1 : 1 ≤ c.page) (h2 : 1 ≤ c.pageSize) (h3 : c.pageSize ≤ resolvedMaxPageSize c)
    (h4 : ∀ t, c.cacheTtl = some t → 0 ≤ t) :
    ((∃ p t, servicePaginate data c = .error (.pageNotFound p t))
      ↔ (0 < calculateTotalPages (data.length : Int) c.pageSize
          ∧ ¬ (1 ≤ c.page ∧ c.page ≤ calculateTotalPages (data.length : Int) c.pageSize)))
    ∧ (servicePaginate data c
        = .error (.pageNotFound c.page (calculateTotalPages (data.length : Int) c.pageSize))
      ↔ (0 < calculateTotalPages (data.length : Int) c.pageSize
          ∧ ¬ (1 ≤ c.page ∧ c.page ≤ calculateTotalPages (data.length : Int) c.pageSize)))
    ∧ (data = [] → servicePaginate data c = .ok
        { data := []
          meta := { currentPage := c.page, pageSize := c.pageSize, totalItems := 0,
                    totalPages := 0, hasPrevious := decide (1 < c.page), hasNext := false,
                    firstItemIndex := 0, lastItemIndex := 0 }
          fromCache := false }) := by
  have hv := validateConfig_ok h1 h2 h3 h4
  have heval := servicePaginate_eval data c hv
  set tp := calculateTotalPages (data.length : Int) c.pageSize with htp
  have hiff : (0 < tp ∧ ¬ isValidPage c.page tp = true)
      ↔ (0 < tp ∧ ¬ (1 ≤ c.page ∧ c.page ≤ tp)) := by
    simp [isValidPage]
  by_cases hc : 0 < tp ∧ ¬ isValidPage c.page tp = true
  · rw [if_pos hc] at heval
    exact ⟨⟨fun _ => hiff.mp hc, fun _ => ⟨c.page, tp, heval⟩⟩,
      ⟨fun _ => hiff.mp hc, fun _ => heval⟩,
      fun hnil => by subst hnil; exact servicePaginate_nil_eval c h1 h2 h3 h4⟩
  · rw [if_neg hc] at heval
    refine ⟨⟨fun hex => ?_, fun hr => absurd (hiff.mpr hr) hc⟩,
      ⟨fun he => ?_, fun hr => absurd (hiff.mpr hr) hc⟩,
      fun hnil => by subst hnil; exact servicePaginate_nil_eval c h1 h2 h3 h4⟩
    · obtain ⟨p, t, hpt⟩ := hex
      rw [heval] at hpt
      simp at hpt
    · rw [heval] at he
      simp at he

/-- Witness for C3: two items, pageSize 1, requested page 5 is out of the
range 1..2 and produces the PageNotFound error. -/
theorem paginate_page_not_found_iff_witness :
    servicePaginate [0, 1] { page := 5, pageSize := 1 }
      = .error (.pageNotFound 5 (calculateTotalPages ((List.length [0, 1] : Nat) : Int) 1)) :=
  (paginate_page_not_found_iff [0, 1] { page := 5, pageSize := 1 }
    (by norm_num) (by norm_num) (by norm_num [resolvedMaxPageSize])
    (fun t ht => by cases ht)).2.1.mpr (by decide)

/-- Claim C10: paginating an empty collection with any validated page and
pageSize succeeds and echoes the requested page back unclamped, with
data empty, totalItems 0, totalPages 0, hasNext false, hasPrevious exactly
when page exceeds 1, and both item indices 0. -/
theorem paginate_empty_unclamped {α : Type} (c : PaginationConfig)
    (h1 : 1 ≤ c.page) (h2 : 1 ≤ c.pageSize) (h3 : c.pageSize ≤ resolvedMaxPageSize c)
    (h4 : ∀ t, c.cacheTtl = some t → 0 ≤ t) :
    servicePaginate ([] : List α) c = .ok
      { data := []
        meta := { currentPage := c.page, pageSize := c.pageSize, totalItems := 0,
                  totalPages := 0, hasPrevious := decide (1 < c.page), hasNext := false,
                  firstItemIndex := 0, lastItemIndex := 0 }
        fromCache := false } :=
  servicePaginate_nil_eval c h1 h2 h3 h4

/-- Witness for C10 at the huge page number 999999 on an empty collection. -/
theorem paginate_empty_unclamped_witness :
    servicePaginate ([] : List Nat) { page := 999999, pageSize := 10 } = .ok
      { data := []
        meta := { currentPage := 999999, pageSize := 10, totalItems := 0,
                  totalPages := 0, hasPrevious := decide ((1 : Int) < 999999),
                  hasNext := false, firstItemIndex := 0, lastItemIndex := 0 }
        fromCache := false } :=
  paginate_empty_unclamped { page := 999999, pageSize := 10 }
    (by norm_num) (by norm_num) (by norm_num [resolvedMaxPageSize])
    (fun t ht => by cases ht)

/-! Helper lemmas for the page-reassembly claim. -/

theorem take_min_length {α : Type} (l : List α) (a : Nat) :
    l.take (min a l.length) = l.take a := by
  simp [List.take_eq_take]

theorem joinSlices {α : Type} (K : Nat) (data : List α) :
    ∀ m : Nat, ((List.range m).map (fun i => (data.drop (i * K)).take K)).flatten
      = data.take (m * K)
  | 0 => by simp
  | m + 1 => by
    rw [List.range_succ, List.map_append, List.flatten_append, joinSlices K data m]
    simp only [List.map_cons, List.map_nil, List.flatten_cons, List.flatten_nil,
      List.append_nil]
    rw [Nat.succ_mul, List.take_add]

theorem getAllPagesGo_ok {α : Type} (data : List α) (k : Int) (g : Nat → PaginatedResult α) :
    ∀ l : List Nat,
      (∀ i ∈ l, servicePaginate data (createConfig ((i : Int) + 1) k) = .ok (g i)) →
      getAllPagesGo data k l = .ok (l.map g)
  | [], _ => rfl
  | i :: rest, h => by
    have h1 := h i (List.mem_cons_self i rest)
    have h2 := getAllPagesGo_ok data k g rest (fun j hj => h j (List.mem_cons_of_mem i hj))
    unfold getAllPagesGo
    rw [h1, h2]
    rfl

theorem createConfig_valid (p k : Int) (hp : 1 ≤ p) (hk1 : 1 ≤ k) (hk2 : k ≤ 100) :
    validateConfig (createConfig p k) = .ok () := by
  apply validateConfig_ok
  · exact hp
  · exact hk1
  · simpa [resolvedMaxPageSize, createConfig] using hk2
  · intro t ht
    simp [createConfig] at ht
    omega

theorem servicePaginate_page_ok {α : Type} (data : List α) (k p : Int)
    (hk1 : 1 ≤ k) (hk2 : k ≤ 100) (hp : 1 ≤ p)
    (hple : p ≤ calculateTotalPages (data.length : Int) k) :
    servicePaginate data (createConfig p k) = .ok (buildResult data (createConfig p k)) := by
  rw [servicePaginate_eval data (createConfig p k) (createConfig_valid p k hp hk1 hk2)]
  have hval : isValidPage (createConfig p k).page
      (calculateTotalPages (data.length : Int) (createConfig p k).pageSize) = true := by
    simp only [createConfig, isValidPage, decide_eq_true_eq]
    exact ⟨hp, hple⟩
  rw [if_neg (by simp [hval])]

theorem buildResult_data {α : Type} (data : List α) (c : PaginationConfig) :
    (buildResult data c).data
      = jsSlice data (calculateStartIndex c.page c.pageSize)
          (calculateEndIndex c.page c.pageSize (data.length : Int)) := rfl

theorem jsSlice_natCast {α : Type} (data : List α) (s e : Nat)
    (hs : s ≤ data.length) (he : e ≤ data.length) :
    jsSlice data (s : Int) (e : Int) = (data.drop s).take (e - s) := by
  simp only [jsSlice]
  rw [if_neg (by omega), if_neg (by omega)]
  have h3 : min (s : Int) (data.length : Int) = (s : Int) := by omega
  have h4 : min (e : Int) (data.length : Int) = (e : Int) := by omega
  rw [h3, h4, Int.toNat_natCast, Int.toNat_natCast]

theorem buildResult_data_slice {α : Type} (data : List α) (K i : Nat)
    (hK : 1 ≤ K) (hstart : i * K ≤ data.length) :
    (buildResult data (createConfig ((i : Int) + 1) (K : Int))).data
      = (data.drop (i * K)).take K := by
  have hsi : calculateStartIndex ((i : Int) + 1) (K : Int) = ((i * K : Nat) : Int) := by
    rw [calculateStartIndex, if_neg (by omega)]
    push_cast
    ring
  have hei : calculateEndIndex ((i : Int) + 1) (K : Int) (data.length : Int)
      = ((min (i * K + K) data.length : Nat) : Int) := by
    rw [calculateEndIndex, hsi]
    omega
  rw [buildResult_data]
  simp only [createConfig]
  rw [hsi, hei]
  rw [jsSlice_natCast data (i * K) (min (i * K + K) data.length) hstart (by omega)]
  have hmin : min (i * K + K) data.length - i * K = min K (data.length - i * K) := by omega
  rw [hmin, ← List.length_drop (i * K) data, take_min_length]

/-- Claim C1: for every data array and every pageSize between 1 and the
maxPageSize 100 installed by createConfig, getAllPages succeeds,
concatenating the data fields of its results in page order reproduces the
original list exactly, there is one result per page, and the last page holds
exactly totalItems - (totalPages - 1) * pageSize items. -/
theorem getAllPages_reassembles {α : Type} (data : List α) (k : Int)
    (hk1 : 1 ≤ k) (hk2 : k ≤ 100) :
    ∃ pages, getAllPages data k = .ok pages
      ∧ (pages.map (fun r => r.data)).flatten = data
      ∧ pages.length = (calculateTotalPages (data.length : Int) k).toNat
      ∧ ∀ lp, pages.getLast? = some lp →
          (lp.data.length : Int)
            = (data.length : Int) - (calculateTotalPages (data.length : Int) k - 1) * k := by
  lift k to ℕ using (by omega : (0 : Int) ≤ k) with K hKk
  have hK1 : 1 ≤ K := by exact_mod_cast hk1
  by_cases hN : data.length = 0
  · have hdata : data = [] := List.length_eq_zero.mp hN
    subst hdata
    have htp0 : calculateTotalPages ((List.length ([] : List α) : Nat) : Int) (K : Int) = 0 := by
      simp [calculateTotalPages]
    refine ⟨[], ?_, rfl, ?_, ?_⟩
    · unfold getAllPages
      rw [htp0]
      rfl
    · simp [calculateTotalPages]
    · intro lp hlp
      simp at hlp
  · have hNpos : 0 < data.length := Nat.pos_of_ne_zero hN
    have hnInt : (0 : Int) < (data.length : Int) := by exact_mod_cast hNpos
    have hkInt : (0 : Int) < (K : Int) := by exact_mod_cast hK1
    set tp := calculateTotalPages (data.length : Int) (K : Int) with htp
    have htp_pos : 0 < tp := calculateTotalPages_pos hnInt hkInt
    obtain ⟨m, htpm⟩ : ∃ m : Nat, tp = (m : Int) := ⟨tp.toNat, by omega⟩
    have hub := le_mul_calculateTotalPages hnInt hkInt
    have hlb := mul_pred_calculateTotalPages_lt hnInt hkInt
    rw [← htp] at hub hlb
    have hmK : data.length ≤ m * K := by
      rw [htpm] at hub
      exact_mod_cast hub
    have hm1 : 1 ≤ m := by omega
    have hlbN : (m - 1) * K < data.length := by
      rw [htpm] at hlb
      have hcast : ((m : Int) - 1) * (K : Int) = (((m - 1) * K : Nat) : Int) := by
        push_cast [Nat.cast_sub hm1]
        ring
      rw [hcast] at hlb
      exact_mod_cast hlb
    set g : Nat → PaginatedResult α :=
      fun i => buildResult data (createConfig ((i : Int) + 1) (K : Int)) with hg
    have hpage : ∀ i ∈ List.range m,
        servicePaginate data (createConfig ((i : Int) + 1) (K : Int)) = .ok (g i) := by
      intro i hi
      have hi2 : i < m := List.mem_range.mp hi
      apply servicePaginate_page_ok data (K : Int) ((i : Int) + 1) hk1 hk2 (by omega)
      rw [← htp, htpm]
      omega
    have hdata_eq : ∀ i ∈ List.range m, (g i).data = (data.drop (i * K)).take K := by
      intro i hi
      have hi2 : i < m := List.mem_range.mp hi
      have hik : i * K ≤ (m - 1) * K := Nat.mul_le_mul_right K (by omega)
      exact buildResult_data_slice data K i hK1 (by omega)
    refine ⟨(List.range m).map g, ?_, ?_, ?_, ?_⟩
    · unfold getAllPages
      rw [← htp, htpm, Int.toNat_natCast]
      exact getAllPagesGo_ok data (K : Int) g (List.range m) hpage

    · rw [List.map_map]
      have hcong : (List.range m).map ((fun r : PaginatedResult α => r.data) ∘ g)
          = (List.range m).map (fun i => (data.drop (i * K)).take K) :=
        List.map_congr_left (fun i hi => hdata_eq i hi)
      rw [hcong, joinSlices K data m]
      exact List.take_of_length_le hmK
    · simp [htpm]
    · intro lp hlp
      obtain ⟨mm, rfl⟩ : ∃ mm, m = mm + 1 := ⟨m - 1, by omega⟩
      rw [List.range_succ, List.map_append] at hlp
      simp only [List.map_cons, List.map_nil] at hlp
      rw [List.getLast?_concat] at hlp
      have hlp2 : lp = g mm := by
        injection hlp with h
        exact h.symm
      subst hlp2
      have hlbN2 : mm * K < data.length := by
        have h9 : mm + 1 - 1 = mm := rfl
        rw [h9] at hlbN
        exact hlbN
      have hmmK : mm * K ≤ data.length := le_of_lt hlbN2
      have hdm : (g mm).data = (data.drop (mm * K)).take K :=
        hdata_eq mm (List.mem_range.mpr (by omega))
      rw [hdm]
      have hlen : ((data.drop (mm * K)).take K).length = data.length - mm * K := by
        rw [List.length_take, List.length_drop]
        have hup : data.length ≤ (mm + 1) * K := hmK
        have hsucc : (mm + 1) * K = mm * K + K := by ring
        omega
      rw [hlen, htpm]
      push_cast [Nat.cast_sub hmmK]
      ring

/-- Witness for C1: three items with pageSize 2 produce two pages whose
concatenation is the original list and whose last page has one item. -/
theorem getAllPages_reassembles_witness :
    ∃ pages, getAllPages [10, 20, 30] (2 : Int) = .ok pages
      ∧ (pages.map (fun r => r.data)).flatten = [10, 20, 30]
      ∧ pages.length = (calculateTotalPages ((List.length [10, 20, 30] : Nat) : Int) 2).toNat
      ∧ ∀ lp, pages.getLast? = some lp →
          (lp.data.length : Int)
            = ((List.length [10, 20, 30] : Nat) : Int)
              - (calculateTotalPages ((List.length [10, 20, 30] : Nat) : Int) 2 - 1) * 2 :=
  getAllPages_reassembles [10, 20, 30] 2 (by norm_num) (by norm_num)

/-! Association-list map lemmas. -/

theorem mapGet_mapSet_self {V : Type} (m : List (String × V)) (k : String) (v : V) :
    mapGet (mapSet m k v) k = some v := by
  induction m with
  | nil => simp [mapSet, mapGet]
  | cons p rest ih =>
    obtain ⟨k1, v1⟩ := p
    by_cases h : k1 = k
    · subst h
      simp [mapSet, mapGet]
    · simp [mapSet, mapGet, h, ih]

theorem mapGet_mapDelete_self {V : Type} (m : List (String × V)) (k : String) :
    mapGet (mapDelete m k) k = none := by
  induction m with
  | nil => rfl
  | cons p rest ih =>
    obtain ⟨k1, v1⟩ := p
    by_cases h : k1 = k
    · subst h
      simpa [mapDelete, mapGet] using ih
    · simpa [mapDelete, mapGet, h] using ih

theorem mapSet_of_none {V : Type} (m : List (String × V)) (k : String) (v : V)
    (h : mapGet m k = none) : mapSet m k v = m ++ [(k, v)] := by
  induction m with
  | nil => rfl
  | cons p rest ih =>
    obtain ⟨k1, v1⟩ := p
    by_cases hk : k1 = k
    · subst hk
      simp [mapGet] at h
    · simp only [mapGet, hk, if_false] at h
      simp [mapSet, hk, ih h]

theorem mapGet_append_of_none {V : Type} (m m2 : List (String × V)) (k : String)
    (h : mapGet m k = none) : mapGet (m ++ m2) k = mapGet m2 k := by
  induction m with
  | nil => rfl
  | cons p rest ih =>
    obtain ⟨k1, v1⟩ := p
    by_cases hk : k1 = k
    · subst hk
      simp [mapGet] at h
    · simp only [mapGet, hk, if_false] at h
      simpa [mapGet, hk] using ih h

theorem mapGet_keyed_map_none {V : Type} (f : String → V) (ks : List String) (k : String)
    (h : k ∉ ks) : mapGet (ks.map (fun x => (x, f x))) k = none := by
  induction ks with
  | nil => rfl
  | cons k1 rest ih =>
    have h1 : k1 ≠ k := fun he => h (by simp [he])
    simp only [List.map_cons, mapGet, h1, if_false]
    exact ih (fun hr => h (by simp [hr]))

/-- Claim C6: for a key whose entry is present, a get at a time not after
expiresAt returns the stored value and bumps that key's recency to the fresh
counter value while leaving the entry map untouched; a get strictly after
expiresAt reports absent and removes the entry, so a subsequent has on the
same key (at any time) reports false. -/
theorem cache_ttl_expiry {V : Type} (s : CacheState V) (key : String) (e : CacheEntry V)
    (t t2 : Int) (hlook : mapGet s.cache key = some e) :
    (t ≤ e.expiresAt →
      cacheGet s key t = (some e.value,
        { s with accessOrder := mapSet s.accessOrder key (s.accessCounter + 1),
                 accessCounter := s.accessCounter + 1 })
      ∧ mapGet (mapSet s.accessOrder key (s.accessCounter + 1)) key
          = some (s.accessCounter + 1))
    ∧ (e.expiresAt < t →
      (cacheGet s key t).1 = none
      ∧ mapGet (cacheGet s key t).2.cache key = none
      ∧ (cacheHas (cacheGet s key t).2 key t2).1 = false) := by
  have heval : cacheGet s key t = if e.expiresAt < t then (none, cacheDelete s key)
      else (some e.value,
        { s with accessOrder := mapSet s.accessOrder key (s.accessCounter + 1),
                 accessCounter := s.accessCounter + 1 }) := by
    unfold cacheGet
    rw [hlook]
  constructor
  · intro h
    rw [heval, if_neg (by omega)]
    exact ⟨rfl, mapGet_mapSet_self _ _ _⟩
  · intro h
    rw [heval, if_pos h]
    have hdel : mapGet (cacheDelete s key).cache key = none :=
      mapGet_mapDelete_self s.cache key
    refine ⟨rfl, hdel, ?_⟩
    unfold cacheHas
    rw [hdel]

/-- Concrete one-entry cache state for the C6 witness. -/
def c6state : CacheState Nat :=
  ⟨[("x", ⟨7, 100, 0⟩)], [("x", 1)], 1⟩

/-- Witness for C6: the entry expires at 100; a get at 100 still returns it,
a get at 101 removes it and has then reports false. -/
theorem cache_ttl_expiry_witness :
    (cacheGet c6state "x" 100).1 = some 7
    ∧ (cacheGet c6state "x" 101).1 = none
    ∧ mapGet (cacheGet c6state "x" 101).2.cache "x" = none
    ∧ (cacheHas (cacheGet c6state "x" 101).2 "x" 0).1 = false :=
  ⟨congrArg Prod.fst ((cache_ttl_expiry c6state "x" ⟨7, 100, 0⟩ 100 0 rfl).1
      (by norm_num)).1,
   (cache_ttl_expiry c6state "x" ⟨7, 100, 0⟩ 101 0 rfl).2 (by norm_num)⟩

/-! Helper lemmas for the LRU eviction claim. -/

/-- The recency records produced by inserting a list of fresh keys in order,
starting from counter value c. -/
def counterZip : List String → Int → List (String × Int)
  | [], _ => []
  | k :: ks, c => (k, c + 1) :: counterZip ks (c + 1)

theorem counterZip_mem_lt : ∀ (ks : List String) (c : Int) (p : String × Int),
    p ∈ counterZip ks c → c < p.2
  | [], _, _, h => absurd h (List.not_mem_nil _)
  | k :: ks, c, p, h => by
    rcases List.mem_cons.mp h with h1 | h2
    · subst h1
      simp
    · have := counterZip_mem_lt ks (c + 1) p h2
      omega

theorem counterZip_map_fst : ∀ (ks : List String) (c : Int),
    (counterZip ks c).map Prod.fst = ks
  | [], _ => rfl
  | k :: ks, c => by simp [counterZip, counterZip_map_fst ks (c + 1)]

theorem mapGet_eq_none_of_not_mem_fst {V : Type} (m : List (String × V)) (k : String)
    (h : k ∉ m.map Prod.fst) : mapGet m k = none := by
  induction m with
  | nil => rfl
  | cons p rest ih =>
    obtain ⟨k1, v1⟩ := p
    simp only [List.map_cons, List.mem_cons, not_or] at h
    have h1 : k1 ≠ k := fun he => h.1 he.symm
    simp only [mapGet, h1, if_false]
    exact ih h.2

theorem mapDelete_of_not_mem_fst {V : Type} (m : List (String × V)) (k : String)
    (h : k ∉ m.map Prod.fst) : mapDelete m k = m := by
  apply List.filter_eq_self.mpr
  intro p hp
  have : p.1 ≠ k := fun he => h (by
    rw [← he]
    exact List.mem_map_of_mem Prod.fst hp)
  simpa using this

theorem mapDelete_keyed_map {V : Type} (f : String → V) (ks : List String) (k : String) :
    mapDelete (ks.map (fun x => (x, f x))) k
      = (ks.filter (fun x => x ≠ k)).map (fun x => (x, f x)) := by
  induction ks with
  | nil => rfl
  | cons k1 rest ih =>
    by_cases h : k1 = k
    · subst h
      simp only [List.map_cons, mapDelete, List.filter_cons] at *
      simpa [mapDelete] using ih
    · simp only [List.map_cons, mapDelete, List.filter_cons] at *
      simp only [ne_eq, decide_not] at ih
      simp [h, ih, mapDelete]

theorem cacheSet_no_evict_eval {V : Type} (s : CacheState V) (key : String) (v : V)
    (ttl now m : Int)
    (h : ¬ (m ≠ 0 ∧ (s.cache.length : Int) ≥ m ∧ (mapGet s.cache key).isNone = true)) :
    cacheSet s key v ttl now (some m)
      = { cache := mapSet s.cache key ⟨v, now + ttl, now⟩,
          accessOrder := mapSet s.accessOrder key (s.accessCounter + 1),
          accessCounter := s.accessCounter + 1 } := by
  simp only [cacheSet]
  rw [if_neg h]

theorem cacheSet_evict_eval {V : Type} (s : CacheState V) (key : String) (v : V)
    (ttl now m : Int) (hm : m ≠ 0) (hlen : (s.cache.length : Int) ≥ m)
    (hnew : mapGet s.cache key = none) :
    cacheSet s key v ttl now (some m)
      = { cache := mapSet (evictLeastRecentlyUsed s).cache key ⟨v, now + ttl, now⟩,
          accessOrder := mapSet (evictLeastRecentlyUsed s).accessOrder key
            ((evictLeastRecentlyUsed s).accessCounter + 1),
          accessCounter := (evictLeastRecentlyUsed s).accessCounter + 1 } := by
  simp only [cacheSet]
  rw [if_pos ⟨hm, hlen, by simp [hnew]⟩]

theorem cacheGet_fresh_eval {V : Type} (s : CacheState V) (key : String) (e : CacheEntry V)
    (t : Int) (hlook : mapGet s.cache key = some e) (h : ¬ e.expiresAt < t) :
    cacheGet s key t = (some e.value,
      { s with accessOrder := mapSet s.accessOrder key (s.accessCounter + 1),
               accessCounter := s.accessCounter + 1 }) := by
  unfold cacheGet
  rw [hlook]
  show (if e.expiresAt < t then (none, cacheDelete s key)
    else (some e.value,
      { s with accessOrder := mapSet s.accessOrder key (s.accessCounter + 1),
               accessCounter := s.accessCounter + 1 })) = _
  rw [if_neg h]

theorem scanLRU_keep : ∀ (l : List (String × Int)) (bk : String) (ba : Int),
    (∀ p ∈ l, ¬ p.2 < ba) → scanLRU l (some (bk, ba)) = some (bk, ba)
  | [], _, _, _ => rfl
  | (k, a) :: rest, bk, ba, h => by
    show (if a < ba then scanLRU rest (some (k, a)) else scanLRU rest (some (bk, ba)))
      = some (bk, ba)
    rw [if_neg (h (k, a) (List.mem_cons_self _ _))]
    exact scanLRU_keep rest bk ba (fun p hp => h p (List.mem_cons_of_mem _ hp))

theorem evict_eval {V : Type} (s : CacheState V) (lk : String) (la : Int)
    (hne : ¬ s.accessOrder.isEmpty = true)
    (hscan : scanLRU s.accessOrder none = some (lk, la)) (hlk : ¬ lk = "") :
    evictLeastRecentlyUsed s = cacheDelete s lk := by
  unfold evictLeastRecentlyUsed
  rw [if_neg hne, hscan]
  show (if lk = "" then s else cacheDelete s lk) = cacheDelete s lk
  rw [if_neg hlk]

theorem insertAll_fresh {V : Type} (v : V) (ttl now : Int) (N : Nat) :
    ∀ (ks : List String) (s : CacheState V),
      s.cache.length + ks.length ≤ N →
      ks.Nodup →
      (∀ k ∈ ks, mapGet s.cache k = none) →
      (∀ k ∈ ks, mapGet s.accessOrder k = none) →
      insertAll ks v ttl now (some (N : Int)) s =
        { cache := s.cache ++ ks.map (fun k => (k, ⟨v, now + ttl, now⟩)),
          accessOrder := s.accessOrder ++ counterZip ks s.accessCounter,
          accessCounter := s.accessCounter + (ks.length : Int) }
  | [], s, _, _, _, _ => by simp [insertAll, counterZip]
  | k0 :: ks, s, hlen, hnodup, hc, ha => by
    have hnd := List.nodup_cons.mp hnodup
    have hlt : ¬ ((N : Int) ≠ 0 ∧ (s.cache.length : Int) ≥ (N : Int)
        ∧ (mapGet s.cache k0).isNone = true) := by
      intro hcond
      have h2 := hcond.2.1
      have : s.cache.length + (ks.length + 1) ≤ N := by
        simpa [List.length_cons] using hlen
      omega
    have hset := cacheSet_no_evict_eval s k0 v ttl now (N : Int) hlt
    rw [mapSet_of_none _ _ _ (hc k0 (List.mem_cons_self _ _)),
        mapSet_of_none _ _ _ (ha k0 (List.mem_cons_self _ _))] at hset
    have hstep : insertAll (k0 :: ks) v ttl now (some (N : Int)) s
        = insertAll ks v ttl now (some (N : Int))
            (cacheSet s k0 v ttl now (some (N : Int))) := rfl
    rw [hstep, hset]
    rw [insertAll_fresh v ttl now N ks _ (by simp at hlen ⊢; omega) hnd.2
      (fun k hk => by
        rw [mapGet_append_of_none _ _ _ (hc k (List.mem_cons_of_mem _ hk))]
        have : k0 ≠ k := fun he => hnd.1 (he ▸ hk)
        simp [mapGet, this])
      (fun k hk => by
        rw [mapGet_append_of_none _ _ _ (ha k (List.mem_cons_of_mem _ hk))]
        have : k0 ≠ k := fun he => hnd.1 (he ▸ hk)
        simp [mapGet, this])]
    simp only [List.append_assoc, List.singleton_append, List.map_cons, List.length_cons,
      counterZip, CacheState.mk.injEq, true_and, and_true]
    push_cast
    ring

theorem mapDelete_const_map {V : Type} (e : V) (ks : List String) (k : String) :
    mapDelete (ks.map (fun x => (x, e))) k
      = (ks.filter (fun x => x ≠ k)).map (fun x => (x, e)) :=
  mapDelete_keyed_map (fun _ => e) ks k

theorem scanLRU_none_cons (k : String) (a : Int) (l : List (String × Int)) :
    scanLRU ((k, a) :: l) none = scanLRU l (some (k, a)) := rfl

theorem scanLRU_cons_some (k bk : String) (a ba : Int) (l : List (String × Int)) :
    scanLRU ((k, a) :: l) (some (bk, ba))
      = if a < ba then scanLRU l (some (k, a)) else scanLRU l (some (bk, ba)) := rfl

theorem scanLRU_second (k0 k1 : String) (b a : Int) (l : List (String × Int))
    (hab : a < b) (hl : ∀ p ∈ l, ¬ p.2 < a) :
    scanLRU ((k0, b) :: (k1, a) :: l) none = some (k1, a) := by
  rw [scanLRU_none_cons, scanLRU_cons_some, if_pos hab]
  exact scanLRU_keep l k1 a hl

/-- Claim C5, amended: the second-inserted key must additionally be
non-empty. Starting from an empty cache with maxSize N, inserting N distinct
keys, refreshing the first-inserted key with get, and then inserting one more
distinct key evicts exactly the second-inserted key (the least recently
touched) and keeps the refreshed first key, all other keys, and the new key,
with exactly N entries remaining. The non-emptiness of the second key is
forced by the falsy guard if (lruKey) in evictLeastRecentlyUsed, which skips
eviction when the selected key is the empty string. -/
theorem lru_eviction_refreshed {V : Type} (v : V) (ttl t0 t1 t2 : Int)
    (k0 k1 : String) (rest : List String) (nk : String)
    (hnodup : (k0 :: k1 :: rest).Nodup)
    (hnk : nk ∉ k0 :: k1 :: rest)
    (hk1ne : k1 ≠ "")
    (hfresh : t1 ≤ t0 + ttl)
    (N : Nat) (s1 s2 s3 : CacheState V)
    (hN : N = rest.length + 2)
    (hs1def : s1 = insertAll (k0 :: k1 :: rest) v ttl t0 (some (N : Int)) emptyCache)
    (hs2def : s2 = (cacheGet s1 k0 t1).2)
    (hs3def : s3 = cacheSet s2 nk v ttl t2 (some (N : Int))) :
    s3.cache.map Prod.fst = (k0 :: rest) ++ [nk]
    ∧ k1 ∉ s3.cache.map Prod.fst
    ∧ s3.cache.length = N := by
  have hnd1 := List.nodup_cons.mp hnodup
  have hnd2 := List.nodup_cons.mp hnd1.2
  have hk01 : k0 ≠ k1 := fun he => hnd1.1 (by simp [he])
  simp only [List.mem_cons, not_or] at hnk
  obtain ⟨hnk0, hnk1, hnkrest⟩ := hnk
  have hs1 : s1 = (⟨(k0 :: k1 :: rest).map (fun x => (x, ⟨v, t0 + ttl, t0⟩)),
        counterZip (k0 :: k1 :: rest) 0,
        (0 : Int) + (((k0 :: k1 :: rest).length : Nat) : Int)⟩ : CacheState V) := by
    rw [hs1def]
    rw [insertAll_fresh v ttl t0 N (k0 :: k1 :: rest) emptyCache
      (by simp [emptyCache, hN]) hnodup (fun k _ => rfl) (fun k _ => rfl)]
    simp [emptyCache]
  have hlook : mapGet s1.cache k0 = some (⟨v, t0 + ttl, t0⟩ : CacheEntry V) := by
    rw [hs1]
    simp [mapGet]
  have hs2 : s2 = (⟨s1.cache, mapSet s1.accessOrder k0 (s1.accessCounter + 1),
        s1.accessCounter + 1⟩ : CacheState V) := by
    rw [hs2def, cacheGet_fresh_eval s1 k0 ⟨v, t0 + ttl, t0⟩ t1 hlook
      (by show ¬ (t0 + ttl < t1); omega)]
  have hcache2 : s2.cache = (k0 :: k1 :: rest).map
      (fun x => (x, (⟨v, t0 + ttl, t0⟩ : CacheEntry V))) := by
    rw [hs2, hs1]
  have hcnt : s1.accessCounter = (0 : Int) + (((k0 :: k1 :: rest).length : Nat) : Int) := by
    rw [hs1]
  have hao2 : s2.accessOrder
      = (k0, s1.accessCounter + 1) :: counterZip (k1 :: rest) 1 := by
    have h1 : s2.accessOrder = mapSet s1.accessOrder k0 (s1.accessCounter + 1) := by
      rw [hs2]
    have h2 : s1.accessOrder = (k0, (0 : Int) + 1) :: counterZip (k1 :: rest) ((0 : Int) + 1) := by
      rw [hs1]
      rfl
    rw [h1, h2]
    norm_num [mapSet]
  have hb : (2 : Int) < s1.accessCounter + 1 := by
    rw [hcnt]
    simp [List.length_cons]
    omega
  have hscan : scanLRU s2.accessOrder none = some (k1, 2) := by
    rw [hao2]
    have hzip : counterZip (k1 :: rest) 1 = (k1, 2) :: counterZip rest 2 := by
      norm_num [counterZip]
    rw [hzip]
    exact scanLRU_second k0 k1 (s1.accessCounter + 1) 2 (counterZip rest 2) hb
      (fun p hp => by
        have := counterZip_mem_lt rest 2 p hp
        omega)
  have hevict : evictLeastRecentlyUsed s2 = cacheDelete s2 k1 :=
    evict_eval s2 k1 2 (by rw [hao2]; simp) hscan hk1ne
  have hlen2 : ((s2.cache.length : Nat) : Int) ≥ (N : Int) := by
    rw [hcache2]
    simp [hN]
    omega
  have hnew2 : mapGet s2.cache nk = none := by
    rw [hcache2]
    apply mapGet_eq_none_of_not_mem_fst
    simp [hnk0, hnk1, hnkrest]
  have hs3 : s3 = (⟨mapSet (cacheDelete s2 k1).cache nk ⟨v, t2 + ttl, t2⟩,
        mapSet (cacheDelete s2 k1).accessOrder nk ((cacheDelete s2 k1).accessCounter + 1),
        (cacheDelete s2 k1).accessCounter + 1⟩ : CacheState V) := by
    rw [hs3def, cacheSet_evict_eval s2 nk v ttl t2 (N : Int)
      (by simp [hN]; omega) hlen2 hnew2, hevict]
  have hfl : rest.filter (fun x => x ≠ k1) = rest :=
    List.filter_eq_self.mpr (fun x hx => by
      have hx1 : x ≠ k1 := fun he => hnd2.1 (he ▸ hx)
      simpa using hx1)
  have hdelcache : (cacheDelete s2 k1).cache
      = (k0 :: rest).map (fun x => (x, (⟨v, t0 + ttl, t0⟩ : CacheEntry V))) := by
    show mapDelete s2.cache k1 = _
    rw [hcache2, mapDelete_const_map]
    congr 1
    simp only [List.filter_cons]
    simp [hk01]
    intro a ha
    exact fun he => hnd2.1 (he ▸ ha)
  have hnknotin : nk ∉ ((k0 :: rest).map
      (fun x => (x, (⟨v, t0 + ttl, t0⟩ : CacheEntry V)))).map Prod.fst := by
    simp [hnk0, hnkrest]
  have hcache3 : s3.cache
      = ((k0 :: rest).map (fun x => (x, (⟨v, t0 + ttl, t0⟩ : CacheEntry V))))
        ++ [(nk, ⟨v, t2 + ttl, t2⟩)] := by
    have h1 : s3.cache = mapSet (cacheDelete s2 k1).cache nk ⟨v, t2 + ttl, t2⟩ := by
      rw [hs3]
    rw [h1, hdelcache,
      mapSet_of_none _ _ _ (mapGet_eq_none_of_not_mem_fst _ _ hnknotin)]
  refine ⟨?_, ?_, ?_⟩
  · rw [hcache3]
    simp [Function.comp_def]
  · rw [hcache3]
    have hk10 : k1 ≠ k0 := fun he => hk01 he.symm
    have hk1nk : k1 ≠ nk := fun he => hnk1 he.symm
    simp [Function.comp_def, hk10, hk1nk, hnd2.1]
  · rw [hcache3]
    simp [hN]

/-- Witness for C5 with keys a and b, maxSize 2, and new key c: b is evicted,
a and c remain. -/
theorem lru_eviction_refreshed_witness :
    ((cacheSet ((cacheGet (insertAll ["a", "b"] (0 : Nat) 100 0 (some ((2 : Nat) : Int))
          emptyCache) "a" 0).2) "c" (0 : Nat) 100 0 (some ((2 : Nat) : Int))).cache.map
        Prod.fst = ["a", "c"])
    ∧ "b" ∉ (cacheSet ((cacheGet (insertAll ["a", "b"] (0 : Nat) 100 0
          (some ((2 : Nat) : Int)) emptyCache) "a" 0).2) "c" (0 : Nat) 100 0
          (some ((2 : Nat) : Int))).cache.map Prod.fst
    ∧ (cacheSet ((cacheGet (insertAll ["a", "b"] (0 : Nat) 100 0 (some ((2 : Nat) : Int))
          emptyCache) "a" 0).2) "c" (0 : Nat) 100 0 (some ((2 : Nat) : Int))).cache.length
        = 2 :=
  lru_eviction_refreshed (0 : Nat) 100 0 0 0 "a" "b" [] "c" (by decide) (by decide)
    (by decide) (by norm_num) 2 _ _ _ rfl rfl rfl rfl

/-- Counterexample to C5 as stated: with maxSize 2 and insertion order a then
the empty-string key, refreshing a and inserting c evicts nothing, because
the falsy guard if (lruKey) of evictLeastRecentlyUsed skips deletion of the
selected empty-string key: the second-inserted key survives and the cache
holds 3 entries instead of 2. -/
theorem lru_eviction_empty_key_cex :
    "" ∈ (cacheSet ((cacheGet (insertAll ["a", ""] (0 : Nat) 100 0
        (some ((2 : Nat) : Int)) emptyCache) "a" 0).2) "c" (0 : Nat) 100 0
        (some ((2 : Nat) : Int))).cache.map Prod.fst
    ∧ (cacheSet ((cacheGet (insertAll ["a", ""] (0 : Nat) 100 0
        (some ((2 : Nat) : Int)) emptyCache) "a" 0).2) "c" (0 : Nat) 100 0
        (some ((2 : Nat) : Int))).cache.length = 3 := by
  decide

/-! Helper lemmas for the capacity and key-set invariant of the cache. -/

/-- The structural invariant relating the two maps: identical key sequences,
without duplicates. -/
def KeysInv {V : Type} (s : CacheState V) : Prop :=
  s.cache.map Prod.fst = s.accessOrder.map Prod.fst
  ∧ (s.cache.map Prod.fst).Nodup

theorem mapGet_eq_none_iff {V : Type} (m : List (String × V)) (k : String) :
    mapGet m k = none ↔ k ∉ m.map Prod.fst := by
  constructor
  · intro h hmem
    induction m with
    | nil => simp at hmem
    | cons p rest ih =>
      obtain ⟨k1, v1⟩ := p
      by_cases hk : k1 = k
      · subst hk
        simp [mapGet] at h
      · simp only [mapGet, hk, if_false] at h
        simp only [List.map_cons, List.mem_cons] at hmem
        rcases hmem with h1 | h1
        · exact hk h1.symm
        · exact ih h h1
  · exact mapGet_eq_none_of_not_mem_fst m k

theorem mapGet_some_mem {V : Type} (m : List (String × V)) (k : String) (v : V)
    (h : mapGet m k = some v) : k ∈ m.map Prod.fst := by
  by_contra hmem
  rw [mapGet_eq_none_of_not_mem_fst m k hmem] at h
  cases h

theorem mapDelete_map_fst {V : Type} (m : List (String × V)) (k : String) :
    (mapDelete m k).map Prod.fst = (m.map Prod.fst).filter (fun x => x ≠ k) := by
  induction m with
  | nil => rfl
  | cons p rest ih =>
    obtain ⟨k1, v1⟩ := p
    by_cases hk : k1 = k
    · subst hk
      simp only [mapDelete, List.filter_cons, List.map_cons] at *
      simpa [mapDelete] using ih
    · simp only [mapDelete, List.filter_cons, List.map_cons] at *
      simp [hk, mapDelete] at ih ⊢
      exact ih

theorem mapSet_map_fst_mem {V : Type} (m : List (String × V)) (k : String) (v : V)
    (h : k ∈ m.map Prod.fst) : (mapSet m k v).map Prod.fst = m.map Prod.fst := by
  induction m with
  | nil => simp at h
  | cons p rest ih =>
    obtain ⟨k1, v1⟩ := p
    by_cases hk : k1 = k
    · subst hk
      simp [mapSet]
    · simp only [List.map_cons, List.mem_cons] at h
      rcases h with h1 | h1
      · exact absurd h1.symm hk
      · simp only [mapSet, hk, if_false, List.map_cons]
        rw [ih h1]

theorem mapDelete_length_le {V : Type} (m : List (String × V)) (k : String) :
    (mapDelete m k).length ≤ m.length :=
  List.length_filter_le _ m

theorem mapDelete_length_mem {V : Type} (m : List (String × V)) (k : String)
    (hnd : (m.map Prod.fst).Nodup) (hm : k ∈ m.map Prod.fst) :
    (mapDelete m k).length + 1 = m.length := by
  induction m with
  | nil => simp at hm
  | cons p rest ih =>
    obtain ⟨k1, v1⟩ := p
    simp only [List.map_cons, List.nodup_cons] at hnd
    by_cases hk : k1 = k
    · subst hk
      have hrest : mapDelete rest k1 = rest :=
        mapDelete_of_not_mem_fst rest k1 hnd.1
      have hcons : mapDelete ((k1, v1) :: rest) k1 = mapDelete rest k1 := by
        simp [mapDelete, List.filter_cons]
      rw [hcons, hrest]
      simp
    · simp only [List.map_cons, List.mem_cons] at hm
      rcases hm with h1 | h1
      · exact absurd h1.symm hk
      · have ihr := ih hnd.2 h1
        have hcons : mapDelete ((k1, v1) :: rest) k = (k1, v1) :: mapDelete rest k := by
          simp [mapDelete, List.filter_cons, hk]
        rw [hcons]
        simp only [List.length_cons]
        omega

theorem keysInv_empty {V : Type} : KeysInv (emptyCache (V := V)) :=
  ⟨rfl, List.nodup_nil⟩

theorem cacheGet_none_eval {V : Type} (s : CacheState V) (k : String) (t : Int)
    (h : mapGet s.cache k = none) : cacheGet s k t = (none, s) := by
  unfold cacheGet
  rw [h]

theorem cacheGet_expired_eval {V : Type} (s : CacheState V) (k : String) (e : CacheEntry V)
    (t : Int) (h : mapGet s.cache k = some e) (hexp : e.expiresAt < t) :
    cacheGet s k t = (none, cacheDelete s k) := by
  unfold cacheGet
  rw [h]
  show (if e.expiresAt < t then ((none : Option V), cacheDelete s k)
    else (some e.value,
      { s with accessOrder := mapSet s.accessOrder k (s.accessCounter + 1),
               accessCounter := s.accessCounter + 1 })) = _
  rw [if_pos hexp]

theorem cacheHas_none_eval {V : Type} (s : CacheState V) (k : String) (t : Int)
    (h : mapGet s.cache k = none) : cacheHas s k t = (false, s) := by
  unfold cacheHas
  rw [h]

theorem cacheHas_some_eval {V : Type} (s : CacheState V) (k : String) (e : CacheEntry V)
    (t : Int) (h : mapGet s.cache k = some e) :
    cacheHas s k t = if e.expiresAt < t then (false, cacheDelete s k) else (true, s) := by
  unfold cacheHas
  rw [h]

theorem scanLRU_isSome : ∀ (l : List (String × Int)) (b : String × Int),
    ∃ p, scanLRU l (some b) = some p
  | [], b => ⟨b, rfl⟩
  | (k, a) :: rest, (bk, ba) => by
    rw [scanLRU_cons_some]
    by_cases h : a < ba
    · rw [if_pos h]
      exact scanLRU_isSome rest (k, a)
    · rw [if_neg h]
      exact scanLRU_isSome rest (bk, ba)

theorem scanLRU_mem : ∀ (l : List (String × Int)) (b : Option (String × Int))
    (p : String × Int), scanLRU l b = some p → p ∈ l ∨ b = some p
  | [], b, p, h => Or.inr h
  | (k, a) :: rest, none, p, h => by
    rw [scanLRU_none_cons] at h
    rcases scanLRU_mem rest (some (k, a)) p h with h1 | h1
    · exact Or.inl (List.mem_cons_of_mem _ h1)
    · exact Or.inl (by simp at h1; simp [h1])
  | (k, a) :: rest, some (bk, ba), p, h => by
    rw [scanLRU_cons_some] at h
    by_cases hab : a < ba
    · rw [if_pos hab] at h
      rcases scanLRU_mem rest (some (k, a)) p h with h1 | h1
      · exact Or.inl (List.mem_cons_of_mem _ h1)
      · exact Or.inl (by simp at h1; simp [h1])
    · rw [if_neg hab] at h
      rcases scanLRU_mem rest (some (bk, ba)) p h with h1 | h1
      · exact Or.inl (List.mem_cons_of_mem _ h1)
      · exact Or.inr h1

theorem evict_delete {V : Type} (s : CacheState V) (hne : s.accessOrder ≠ [])
    (hnoempty : "" ∉ s.accessOrder.map Prod.fst) :
    ∃ lk, lk ∈ s.accessOrder.map Prod.fst
      ∧ evictLeastRecentlyUsed s = cacheDelete s lk := by
  obtain ⟨⟨x, xa⟩, l2, hxl⟩ : ∃ x l2, s.accessOrder = x :: l2 := by
    cases hao : s.accessOrder with
    | nil => exact absurd hao hne
    | cons x l2 => exact ⟨x, l2, rfl⟩
  have hsome : ∃ p, scanLRU s.accessOrder none = some p := by
    rw [hxl, scanLRU_none_cons]
    exact scanLRU_isSome l2 (x, xa)
  obtain ⟨⟨lk, la⟩, hscan⟩ := hsome
  have hmem : (lk, la) ∈ s.accessOrder := by
    rcases scanLRU_mem s.accessOrder none (lk, la) hscan with h1 | h1
    · exact h1
    · cases h1
  have hlkmem : lk ∈ s.accessOrder.map Prod.fst :=
    List.mem_map_of_mem Prod.fst hmem
  have hlkne : ¬ lk = "" := fun he => hnoempty (he ▸ hlkmem)
  refine ⟨lk, hlkmem, evict_eval s lk la ?_ hscan hlkne⟩
  rw [hxl]
  simp

theorem evict_id_or_delete {V : Type} (s : CacheState V) :
    evictLeastRecentlyUsed s = s
      ∨ ∃ lk, evictLeastRecentlyUsed s = cacheDelete s lk := by
  unfold evictLeastRecentlyUsed
  by_cases he : s.accessOrder.isEmpty = true
  · rw [if_pos he]
    exact Or.inl rfl
  · rw [if_neg he]
    cases hscan : scanLRU s.accessOrder none with
    | none => exact Or.inl rfl
    | some p =>
      obtain ⟨lk, la⟩ := p
      by_cases hlk : lk = ""
      · refine Or.inl ?_
        show (if lk = "" then s else cacheDelete s lk) = s
        rw [if_pos hlk]
      · refine Or.inr ⟨lk, ?_⟩
        show (if lk = "" then s else cacheDelete s lk) = cacheDelete s lk
        rw [if_neg hlk]

theorem keysInv_cacheDelete {V : Type} (s : CacheState V) (k : String)
    (h : KeysInv s) : KeysInv (cacheDelete s k) := by
  obtain ⟨heq, hnd⟩ := h
  constructor
  · show (mapDelete s.cache k).map Prod.fst = (mapDelete s.accessOrder k).map Prod.fst
    rw [mapDelete_map_fst, mapDelete_map_fst, heq]
  · show ((mapDelete s.cache k).map Prod.fst).Nodup
    rw [mapDelete_map_fst]
    exact hnd.filter _

theorem keysInv_cacheGet {V : Type} (s : CacheState V) (k : String) (t : Int)
    (h : KeysInv s) : KeysInv ((cacheGet s k t).2) := by
  cases hmg : mapGet s.cache k with
  | none => rw [cacheGet_none_eval s k t hmg]; exact h
  | some e =>
    by_cases hexp : e.expiresAt < t
    · rw [cacheGet_expired_eval s k e t hmg hexp]
      exact keysInv_cacheDelete s k h
    · rw [cacheGet_fresh_eval s k e t hmg hexp]
      have hmem : k ∈ s.cache.map Prod.fst := mapGet_some_mem _ _ _ hmg
      refine ⟨?_, h.2⟩
      show s.cache.map Prod.fst = (mapSet s.accessOrder k (s.accessCounter + 1)).map Prod.fst
      rw [mapSet_map_fst_mem s.accessOrder k _ (h.1 ▸ hmem)]
      exact h.1

theorem keysInv_cacheHas {V : Type} (s : CacheState V) (k : String) (t : Int)
    (h : KeysInv s) : KeysInv ((cacheHas s k t).2) := by
  cases hmg : mapGet s.cache k with
  | none => rw [cacheHas_none_eval s k t hmg]; exact h
  | some e =>
    rw [cacheHas_some_eval s k e t hmg]
    by_cases hexp : e.expiresAt < t
    · rw [if_pos hexp]
      exact keysInv_cacheDelete s k h
    · rw [if_neg hexp]
      exact h

theorem keysInv_evict {V : Type} (s : CacheState V) (h : KeysInv s) :
    KeysInv (evictLeastRecentlyUsed s) := by
  rcases evict_id_or_delete s with h1 | ⟨lk, h1⟩ <;> rw [h1]
  · exact h
  · exact keysInv_cacheDelete s lk h

theorem keysInv_mapSet_pair {V : Type} (s1 : CacheState V) (k : String)
    (e : CacheEntry V) (c c2 : Int) (h : KeysInv s1) :
    KeysInv (⟨mapSet s1.cache k e, mapSet s1.accessOrder k c, c2⟩ : CacheState V) := by
  obtain ⟨heq, hnd⟩ := h
  by_cases hmem : k ∈ s1.cache.map Prod.fst
  · constructor
    · show (mapSet s1.cache k e).map Prod.fst = (mapSet s1.accessOrder k c).map Prod.fst
      rw [mapSet_map_fst_mem _ _ _ hmem, mapSet_map_fst_mem _ _ _ (heq ▸ hmem), heq]
    · show ((mapSet s1.cache k e).map Prod.fst).Nodup
      rw [mapSet_map_fst_mem _ _ _ hmem]
      exact hnd
  · have hnone1 : mapGet s1.cache k = none := mapGet_eq_none_of_not_mem_fst _ _ hmem
    have hnone2 : mapGet s1.accessOrder k = none :=
      mapGet_eq_none_of_not_mem_fst _ _ (heq ▸ hmem)
    constructor
    · show (mapSet s1.cache k e).map Prod.fst = (mapSet s1.accessOrder k c).map Prod.fst
      rw [mapSet_of_none _ _ _ hnone1, mapSet_of_none _ _ _ hnone2]
      simp [heq]
    · show ((mapSet s1.cache k e).map Prod.fst).Nodup
      rw [mapSet_of_none _ _ _ hnone1]
      simp [List.nodup_append, hnd, hmem]

theorem keysInv_cacheSet {V : Type} (s : CacheState V) (k : String) (v : V)
    (ttl now : Int) (ms : Option Int) (h : KeysInv s) :
    KeysInv (cacheSet s k v ttl now ms) := by
  cases ms with
  | none =>
    show KeysInv (⟨mapSet s.cache k _, mapSet s.accessOrder k _, _⟩ : CacheState V)
    exact keysInv_mapSet_pair s k _ _ _ h
  | some m =>
    simp only [cacheSet]
    split
    · exact keysInv_mapSet_pair _ k _ _ _ (keysInv_evict s h)
    · exact keysInv_mapSet_pair s k _ _ _ h

theorem keysInv_cleanup_aux {V : Type} :
    ∀ (ks : List String) (s : CacheState V), KeysInv s →
      KeysInv (ks.foldl cacheDelete s)
  | [], s, h => h
  | k :: ks, s, h =>
    keysInv_cleanup_aux ks (cacheDelete s k) (keysInv_cacheDelete s k h)

theorem keysInv_applyOp {V : Type} (ms : Option Int) (s : CacheState V)
    (op : CacheOp V) (h : KeysInv s) : KeysInv (applyOp ms s op) := by
  cases op with
  | get key now => exact keysInv_cacheGet s key now h
  | set key v ttl now => exact keysInv_cacheSet s key v ttl now ms h
  | del key => exact keysInv_cacheDelete s key h
  | clear => exact keysInv_empty
  | has key now => exact keysInv_cacheHas s key now h
  | cleanup now => exact keysInv_cleanup_aux _ s h

/-- The capacity invariant: no empty-string key, and at most N live entries. -/
def CapInv {V : Type} (N : Nat) (s : CacheState V) : Prop :=
  "" ∉ s.cache.map Prod.fst ∧ s.cache.length ≤ N

theorem capInv_cacheDelete {V : Type} {N : Nat} (s : CacheState V) (k : String)
    (h : CapInv N s) : CapInv N (cacheDelete s k) := by
  constructor
  · show "" ∉ (mapDelete s.cache k).map Prod.fst
    rw [mapDelete_map_fst]
    intro hmem
    exact h.1 (List.mem_of_mem_filter hmem)
  · exact le_trans (mapDelete_length_le s.cache k) h.2

theorem capInv_cacheGet {V : Type} {N : Nat} (s : CacheState V) (k : String) (t : Int)
    (h : CapInv N s) : CapInv N ((cacheGet s k t).2) := by
  cases hmg : mapGet s.cache k with
  | none => rw [cacheGet_none_eval s k t hmg]; exact h
  | some e =>
    by_cases hexp : e.expiresAt < t
    · rw [cacheGet_expired_eval s k e t hmg hexp]
      exact capInv_cacheDelete s k h
    · rw [cacheGet_fresh_eval s k e t hmg hexp]
      exact h

theorem capInv_cacheHas {V : Type} {N : Nat} (s : CacheState V) (k : String) (t : Int)
    (h : CapInv N s) : CapInv N ((cacheHas s k t).2) := by
  cases hmg : mapGet s.cache k with
  | none => rw [cacheHas_none_eval s k t hmg]; exact h
  | some e =>
    rw [cacheHas_some_eval s k e t hmg]
    by_cases hexp : e.expiresAt < t
    · rw [if_pos hexp]
      exact capInv_cacheDelete s k h
    · rw [if_neg hexp]
      exact h

theorem capInv_cleanup_aux {V : Type} {N : Nat} :
    ∀ (ks : List String) (s : CacheState V), CapInv N s →
      CapInv N (ks.foldl cacheDelete s)
  | [], _, h => h
  | k :: ks, s, h => capInv_cleanup_aux ks (cacheDelete s k) (capInv_cacheDelete s k h)

theorem mapSet_length_mem {V : Type} (m : List (String × V)) (k : String) (v : V)
    (h : k ∈ m.map Prod.fst) : (mapSet m k v).length = m.length := by
  have h1 : (mapSet m k v).length = ((mapSet m k v).map Prod.fst).length :=
    (List.length_map _ _).symm
  rw [h1, mapSet_map_fst_mem m k v h, List.length_map]

theorem capInv_cacheSet {V : Type} {N : Nat} (hN : 1 ≤ N) (s : CacheState V)
    (k : String) (v : V) (ttl now : Int) (hk : k ≠ "")
    (hkeys : KeysInv s) (h : CapInv N s) :
    CapInv N (cacheSet s k v ttl now (some (N : Int))) := by
  by_cases hcond : (N : Int) ≠ 0 ∧ (s.cache.length : Int) ≥ (N : Int)
      ∧ (mapGet s.cache k).isNone = true
  · have heval := cacheSet_evict_eval s k v ttl now (N : Int) hcond.1 hcond.2.1
      (by
        have := hcond.2.2
        cases hmg : mapGet s.cache k with
        | none => rfl
        | some e => rw [hmg] at this; simp at this)
    rw [heval]
    have hfresh : mapGet s.cache k = none := by
      have := hcond.2.2
      cases hmg : mapGet s.cache k with
      | none => rfl
      | some e => rw [hmg] at this; simp at this
    have hknotmem : k ∉ s.cache.map Prod.fst := (mapGet_eq_none_iff _ _).mp hfresh
    have hlenN : s.cache.length = N := by
      have h1 := hcond.2.1
      have h2 := h.2
      omega
    have haone : s.accessOrder ≠ [] := by
      intro hnil
      have : s.cache.map Prod.fst = [] := by rw [hkeys.1, hnil]; rfl
      have : s.cache = [] := List.map_eq_nil_iff.mp this
      rw [this] at hlenN
      simp at hlenN
      omega
    have haoemp : "" ∉ s.accessOrder.map Prod.fst := by
      rw [← hkeys.1]
      exact h.1
    obtain ⟨lk, hlkmem, hevict⟩ := evict_delete s haone haoemp
    rw [hevict]
    have hlkcache : lk ∈ s.cache.map Prod.fst := by rw [hkeys.1]; exact hlkmem
    have hdlen : (cacheDelete s lk).cache.length + 1 = s.cache.length :=
      mapDelete_length_mem s.cache lk hkeys.2 hlkcache
    have hkfresh2 : mapGet (cacheDelete s lk).cache k = none := by
      apply mapGet_eq_none_of_not_mem_fst
      show k ∉ (mapDelete s.cache lk).map Prod.fst
      rw [mapDelete_map_fst]
      intro hmem
      exact hknotmem (List.mem_of_mem_filter hmem)
    constructor
    · show "" ∉ (mapSet (cacheDelete s lk).cache k _).map Prod.fst
      rw [mapSet_of_none _ _ _ hkfresh2]
      simp only [List.map_append, List.map_cons, List.map_nil, List.mem_append,
        List.mem_singleton, List.mem_cons]
      rintro (hmem | hmem)
      · exact h.1 (by
          have : "" ∈ (mapDelete s.cache lk).map Prod.fst := hmem
          rw [mapDelete_map_fst] at this
          exact List.mem_of_mem_filter this)
      · simp at hmem
        exact hk hmem.symm
    · show (mapSet (cacheDelete s lk).cache k _).length ≤ N
      rw [mapSet_of_none _ _ _ hkfresh2]
      simp only [List.length_append, List.length_cons, List.length_nil]
      omega
  · rw [cacheSet_no_evict_eval s k v ttl now (N : Int) hcond]
    by_cases hmem : k ∈ s.cache.map Prod.fst
    · constructor
      · show "" ∉ (mapSet s.cache k _).map Prod.fst
        rw [mapSet_map_fst_mem _ _ _ hmem]
        exact h.1
      · show (mapSet s.cache k _).length ≤ N
        rw [mapSet_length_mem _ _ _ hmem]
        exact h.2
    · have hfresh : mapGet s.cache k = none := mapGet_eq_none_of_not_mem_fst _ _ hmem
      have hlen : s.cache.length < N := by
        by_contra hge
        push_neg at hge
        exact hcond ⟨by omega, by exact_mod_cast Int.ofNat_le.mpr hge, by rw [hfresh]; rfl⟩
      constructor
      · show "" ∉ (mapSet s.cache k _).map Prod.fst
        rw [mapSet_of_none _ _ _ hfresh]
        simp only [List.map_append, List.map_cons, List.map_nil, List.mem_append]
        rintro (hmem2 | hmem2)
        · exact h.1 hmem2
        · simp at hmem2
          exact hk hmem2.symm
      · show (mapSet s.cache k _).length ≤ N
        rw [mapSet_of_none _ _ _ hfresh]
        simp only [List.length_append, List.length_cons, List.length_nil]
        omega

theorem capInv_applyOp {V : Type} {N : Nat} (hN : 1 ≤ N) (s : CacheState V)
    (op : CacheOp V) (hkeys : KeysInv s) (hc : CapInv N s)
    (hop : ∀ k v ttl now, op = CacheOp.set k v ttl now → k ≠ "") :
    CapInv N (applyOp (some (N : Int)) s op) := by
  cases op with
  | get key now => exact capInv_cacheGet s key now hc
  | set key v ttl now =>
    exact capInv_cacheSet hN s key v ttl now (hop key v ttl now rfl) hkeys hc
  | del key => exact capInv_cacheDelete s key hc
  | clear =>
    show CapInv N (emptyCache : CacheState V)
    exact ⟨by simp [emptyCache], by simp [emptyCache]⟩
  | has key now => exact capInv_cacheHas s key now hc
  | cleanup now => exact capInv_cleanup_aux _ s hc

/-- Claim C9, amended: for a cache with maxSize N of at least 1, after any
finite operation sequence from the empty state the key set of the entry map
always equals the key set of the recency map; and provided no set operation
ever uses the empty-string key, the number of live entries never exceeds N.
The proviso is forced by the falsy guard if (lruKey) of
evictLeastRecentlyUsed, which can refuse to evict the empty-string key. -/
theorem cache_capacity_keyset {V : Type} (N : Nat) (hN : 1 ≤ N)
    (ops : List (CacheOp V)) :
    (∀ k, k ∈ (runOps (some (N : Int)) ops).cache.map Prod.fst
        ↔ k ∈ (runOps (some (N : Int)) ops).accessOrder.map Prod.fst)
    ∧ ((∀ k v ttl now, CacheOp.set k v ttl now ∈ ops → k ≠ "") →
        (runOps (some (N : Int)) ops).cache.length ≤ N) := by
  have hfold : ∀ (l : List (CacheOp V)) (s : CacheState V), KeysInv s →
      KeysInv (l.foldl (applyOp (some (N : Int))) s) := by
    intro l
    induction l with
    | nil => exact fun s h => h
    | cons op rest ih => exact fun s h => ih _ (keysInv_applyOp _ s op h)
  have hfold2 : ∀ (l : List (CacheOp V)) (s : CacheState V), KeysInv s → CapInv N s →
      (∀ k v ttl now, CacheOp.set k v ttl now ∈ l → k ≠ "") →
      CapInv N (l.foldl (applyOp (some (N : Int))) s) := by
    intro l
    induction l with
    | nil => exact fun s _ hc _ => hc
    | cons op rest ih =>
      intro s hk hc hops
      exact ih _ (keysInv_applyOp _ s op hk)
        (capInv_applyOp hN s op hk hc
          (fun k v ttl now he => hops k v ttl now (he ▸ List.mem_cons_self _ _)))
        (fun k v ttl now hm => hops k v ttl now (List.mem_cons_of_mem _ hm))
  constructor
  · intro k
    unfold runOps
    rw [(hfold ops emptyCache keysInv_empty).1]
  · intro hops
    unfold runOps
    exact (hfold2 ops emptyCache keysInv_empty
      ⟨by simp [emptyCache], by simp [emptyCache]⟩ hops).2

/-- Concrete operation sequence for the C9 witness. -/
def c9ops : List (CacheOp Nat) :=
  [CacheOp.set "a" 0 5 0, CacheOp.get "a" 1, CacheOp.set "b" 1 5 2,
   CacheOp.set "c" 2 5 3, CacheOp.has "b" 4, CacheOp.cleanup 100,
   CacheOp.del "a", CacheOp.set "d" 3 5 5]

/-- Witness for C9 with maxSize 2 over a sequence exercising every
operation. -/
theorem cache_capacity_keyset_witness :
    ("a" ∈ (runOps (some ((2 : Nat) : Int)) c9ops).cache.map Prod.fst
      ↔ "a" ∈ (runOps (some ((2 : Nat) : Int)) c9ops).accessOrder.map Prod.fst)
    ∧ (runOps (some ((2 : Nat) : Int)) c9ops).cache.length ≤ 2 :=
  ⟨(cache_capacity_keyset 2 (by norm_num) c9ops).1 "a",
   (cache_capacity_keyset 2 (by norm_num) c9ops).2 (by
      intro k v ttl now hm
      simp only [c9ops, List.mem_cons, List.not_mem_nil, or_false] at hm
      rcases hm with h1 | h1 | h1 | h1 | h1 | h1 | h1 | h1 <;>
        first
          | (injection h1 with hk hv ht hn
             subst hk
             decide)
          | injection h1)⟩

/-- Counterexample to C9 as stated: with maxSize 1, setting the empty-string
key and then a second key leaves 2 live entries, because the falsy guard
if (lruKey) of evictLeastRecentlyUsed skips eviction of the empty-string
key. -/
theorem cache_capacity_empty_key_cex :
    (runOps (some ((1 : Nat) : Int))
        [CacheOp.set "" (0 : Nat) 100 0, CacheOp.set "k" (0 : Nat) 100 0]).cache.length = 2
    ∧ ¬ ((2 : Nat) ≤ 1) := by
  decide

/-- Claim C4, amended: the PaginatorService-level generateCacheKey projects
the configuration to page and pageSize before hashing, so for structurally
equal data it depends only on page and pageSize; the CorePaginator-level key
hashes the entire normalized configuration and so additionally depends on
maxPageSize, enableCache and cacheTtl; distinctness of keys for different
data or page/pageSize holds only with high probability, the rolling hash not
being injective. -/
theorem service_cache_key_projection (data : List JVal) (c1 c2 : PaginationConfig)
    (hp : c1.page = c2.page) (hs : c1.pageSize = c2.pageSize) :
    serviceGenerateCacheKey data c1 = serviceGenerateCacheKey data c2 := by
  unfold serviceGenerateCacheKey
  rw [hp, hs]

/-- Witness for C4's amended claim: two configurations differing in
maxPageSize, enableCache and cacheTtl produce the same service-level key. -/
def c4cfgA : PaginationConfig := ⟨1, 10, some 50, some true, none⟩

def c4cfgB : PaginationConfig := ⟨1, 10, some 100, some false, some 7⟩

theorem service_cache_key_projection_witness :
    serviceGenerateCacheKey [] c4cfgA = serviceGenerateCacheKey [] c4cfgB :=
  service_cache_key_projection [] c4cfgA c4cfgB rfl rfl

set_option maxRecDepth 100000 in
/-- Counterexample to C4 as stated: two CorePaginator.paginate calls with
structurally equal data and identical page and pageSize but different
maxPageSize values (both valid for pageSize 10) compute different cache
keys, because paginateNormal passes the whole normalized configuration to
generateCacheKey. -/
theorem core_cache_key_maxPageSize_cex :
    coreCacheKeyOfCall [] (⟨some 1, some 10, some 50, some true, none⟩ : ExtendedPaginationConfig)
      ≠ coreCacheKeyOfCall []
        (⟨some 1, some 10, some 100, some true, none⟩ : ExtendedPaginationConfig) := by
  decide

/-- Claim C7, amended: for every cache backend whose set always throws and
whose get reports a miss without throwing, a paginate call with caching
enabled does not propagate the set failure: it returns exactly the result of
the same call with caching disabled (fromCache false on success) and leaves
the backend state untouched. -/
theorem cache_set_failure_graceful {α σ : Type}
    (keyOf : List α → PaginationConfig → String)
    (be : CacheBackend α σ) (s : σ) (data : List α) (c : PaginationConfig)
    (hset : ∀ k v t s2, ∃ e, be.set k v t s2 = .error e)
    (hget : ∀ k s2, be.get k s2 = .ok (none, s2))
    (hcache : c.enableCache = some true) :
    paginateNormal keyOf (some be) s data c
      = Except.map (fun r => (r, s)) (servicePaginate data c)
    ∧ ∀ r s2, paginateNormal keyOf (some be) s data c = .ok (r, s2) →
        r.fromCache = false := by
  cases hv : validateConfig c with
  | error e =>
    constructor
    · unfold paginateNormal servicePaginate paginateNormal
      simp only [hv]
      rfl
    · intro r s2 hok
      unfold paginateNormal at hok
      simp [hv] at hok
  | ok u =>
    have hlookup : cacheLookupStep keyOf (some be) s data c = .ok (none, s) := by
      unfold cacheLookupStep
      rw [hcache]
      show (match be.get (keyOf data c) s with
        | Except.error e => Except.error (PagError.backendFailure e)
        | Except.ok (r, s1) => Except.ok (r, s1)) = Except.ok (none, s)
      rw [hget]
    have hstore : ∀ r : PaginatedResult α,
        cacheStoreStep keyOf (some be) s data c r = (r, s) := by
      intro r
      unfold cacheStoreStep
      rw [hcache]
      show (match be.set (keyOf data c) r (resolvedCacheTtl c) s with
        | Except.error _ => (r, s)
        | Except.ok s2 => (r, s2)) = (r, s)
      obtain ⟨e, he⟩ := hset (keyOf data c) r (resolvedCacheTtl c) s
      rw [he]
    have hleft : paginateNormal keyOf (some be) s data c
        = if 0 < calculateTotalPages (data.length : Int) c.pageSize
             ∧ ¬ isValidPage c.page (calculateTotalPages (data.length : Int) c.pageSize)
               = true
          then .error (.pageNotFound c.page
            (calculateTotalPages (data.length : Int) c.pageSize))
          else .ok (buildResult data c, s) := by
      unfold paginateNormal
      simp only [hv, hlookup, hstore]
    have hright := servicePaginate_eval data c hv
    constructor
    · rw [hleft, hright]
      by_cases hcond : 0 < calculateTotalPages (data.length : Int) c.pageSize
          ∧ ¬ isValidPage c.page (calculateTotalPages (data.length : Int) c.pageSize) = true
      · rw [if_pos hcond, if_pos hcond]
        rfl
      · rw [if_neg hcond, if_neg hcond]
        rfl
    · intro r s2 hok
      rw [hleft] at hok
      by_cases hcond : 0 < calculateTotalPages (data.length : Int) c.pageSize
          ∧ ¬ isValidPage c.page (calculateTotalPages (data.length : Int) c.pageSize) = true
      · rw [if_pos hcond] at hok
        cases hok
      · rw [if_neg hcond] at hok
        injection hok with hpair
        have h1 : buildResult data c = r := congrArg Prod.fst hpair
        rw [← h1]
        rfl

/-- A backend whose set always throws and whose get always misses, for the
C7 witness. -/
def beThrow : CacheBackend Int Unit :=
  { get := fun _ s => .ok (none, s), set := fun _ _ _ _ => .error "backend down" }

/-- Witness for C7's amended claim on a one-element list. -/
theorem cache_set_failure_graceful_witness :
    paginateNormal (fun _ _ => "K") (some beThrow) () [(5 : Int)]
        { page := 1, pageSize := 10, enableCache := some true }
      = Except.map (fun r => (r, ()))
          (servicePaginate [(5 : Int)] { page := 1, pageSize := 10, enableCache := some true })
    ∧ ∀ r s2, paginateNormal (fun _ _ => "K") (some beThrow) () [(5 : Int)]
        { page := 1, pageSize := 10, enableCache := some true } = .ok (r, s2) →
        r.fromCache = false :=
  cache_set_failure_graceful (fun _ _ => "K") beThrow () [(5 : Int)]
    { page := 1, pageSize := 10, enableCache := some true }
    (fun _ _ _ _ => ⟨"backend down", rfl⟩) (fun _ _ => rfl) rfl

/-- A backend whose set always throws but whose get reports a stale hit. -/
def beHit : CacheBackend Int Unit :=
  { get := fun _ s => .ok (some ⟨[], ⟨0, 0, 0, 0, false, false, 0, 0⟩, false⟩, s)
    set := fun _ _ _ _ => .error "backend down" }

/-- Counterexample to C7 as stated: beHit is a cache backend whose set
operation throws, yet the paginate call with caching enabled returns the
backend-supplied stale result with fromCache true rather than the freshly
computed result of the cache-disabled call. -/
theorem cache_set_failure_hit_cex :
    (∀ k v t s2, ∃ e, beHit.set k v t s2 = Except.error e)
    ∧ (paginateNormal (fun _ _ => "K") (some beHit) () [(5 : Int)]
        { page := 1, pageSize := 10, enableCache := some true }).toOption.map
          (fun p => (p.1.data, p.1.fromCache)) = some ([], true)
    ∧ (servicePaginate [(5 : Int)]
        { page := 1, pageSize := 10, enableCache := some true }).toOption.map
          (fun r => (r.data, r.fromCache)) = some ([5], false) :=
  ⟨fun _ _ _ _ => ⟨"backend down", rfl⟩, by rfl, by rfl⟩

/-- Evaluation of MemoryCacheService.set on the empty cache state. -/
theorem cacheSet_empty_cache {V : Type} (k : String) (v : V) (ttl now : Int)
    (ms : Option Int) :
    (cacheSet (emptyCache : CacheState V) k v ttl now ms).cache
      = [(k, ⟨v, now + ttl, now⟩)] := by
  cases ms with
  | none => rfl
  | some m =>
    simp only [cacheSet]
    split
    · rfl
    · rfl

/-- Claim C8, amended: on a cache miss with caching enabled the freshly
computed result is stored via cache.set under the computed key with
expiry now + ttl, where the ttl is the call's cacheTtl when that is a
nonzero integer, and the default 300000 ms when cacheTtl is absent or 0:
the JavaScript expression cacheTtl verbar-verbar DEFAULT treats an explicit
0 as falsy, so 0 also selects the default. -/
theorem cache_store_ttl {α : Type} (keyOf : List α → PaginationConfig → String)
    (ms : Option Int) (now : Int) (data : List α) (c : PaginationConfig)
    (hcache : c.enableCache = some true)
    (r : PaginatedResult α) (s2 : CacheState (PaginatedResult α))
    (hok : paginateNormal keyOf (some (memBackend ms now)) emptyCache data c
      = .ok (r, s2)) :
    s2.cache = [(keyOf data c, ⟨r, now + resolvedCacheTtl c, now⟩)]
    ∧ (∀ t, c.cacheTtl = some t → t ≠ 0 → resolvedCacheTtl c = t)
    ∧ (c.cacheTtl = none ∨ c.cacheTtl = some 0 → resolvedCacheTtl c = 300000) := by
  have httl1 : ∀ t, c.cacheTtl = some t → t ≠ 0 → resolvedCacheTtl c = t := by
    intro t ht hne
    unfold resolvedCacheTtl
    rw [ht]
    simp [hne]
  have httl2 : c.cacheTtl = none ∨ c.cacheTtl = some 0 → resolvedCacheTtl c = 300000 := by
    intro h
    unfold resolvedCacheTtl
    rcases h with h | h <;> rw [h] <;> simp
  cases hv : validateConfig c with
  | error e =>
    unfold paginateNormal at hok
    simp [hv] at hok
  | ok u =>
    have hlookup : cacheLookupStep keyOf (some (memBackend ms now)) emptyCache data c
        = .ok (none, (emptyCache : CacheState (PaginatedResult α))) := by
      unfold cacheLookupStep
      rw [hcache]
      rfl
    have hstore : cacheStoreStep keyOf (some (memBackend ms now)) emptyCache data c
        (buildResult data c)
        = (buildResult data c, cacheSet emptyCache (keyOf data c) (buildResult data c)
            (resolvedCacheTtl c) now ms) := by
      unfold cacheStoreStep
      rw [hcache]
      rfl
    unfold paginateNormal at hok
    simp only [hv, hlookup] at hok
    by_cases hcond : 0 < calculateTotalPages (data.length : Int) c.pageSize
        ∧ ¬ isValidPage c.page (calculateTotalPages (data.length : Int) c.pageSize) = true
    · rw [if_pos hcond] at hok
      cases hok
    · rw [if_neg hcond, hstore] at hok
      injection hok with hpair
      have h1 : buildResult data c = r := congrArg Prod.fst hpair
      have h2 : cacheSet emptyCache (keyOf data c) (buildResult data c)
          (resolvedCacheTtl c) now ms = s2 := congrArg Prod.snd hpair
      refine ⟨?_, httl1, httl2⟩
      rw [← h2, ← h1]
      exact cacheSet_empty_cache (keyOf data c) (buildResult data c)
        (resolvedCacheTtl c) now ms

/-- Concrete configuration with an explicit nonzero cacheTtl for the C8
witness. -/
def c8cfg : PaginationConfig :=
  { page := 1, pageSize := 10, enableCache := some true, cacheTtl := some 12345 }

/-- Witness for C8: with cacheTtl 12345 the stored entry expires at
now + 12345. -/
theorem cache_store_ttl_witness :
    (cacheSet (emptyCache : CacheState (PaginatedResult Int)) "K"
        (buildResult [(1 : Int)] c8cfg) (resolvedCacheTtl c8cfg) 0 (some 10)).cache
      = [("K", ⟨buildResult [(1 : Int)] c8cfg, 0 + resolvedCacheTtl c8cfg, 0⟩)]
    ∧ (∀ t, c8cfg.cacheTtl = some t → t ≠ 0 → resolvedCacheTtl c8cfg = t)
    ∧ (c8cfg.cacheTtl = none ∨ c8cfg.cacheTtl = some 0 → resolvedCacheTtl c8cfg = 300000) :=
  cache_store_ttl (fun _ _ => "K") (some 10) 0 [(1 : Int)] c8cfg rfl
    (buildResult [(1 : Int)] c8cfg)
    (cacheSet emptyCache "K" (buildResult [(1 : Int)] c8cfg) (resolvedCacheTtl c8cfg) 0
      (some 10))
    (by rfl)

/-- Concrete configuration with the explicit cacheTtl 0. -/
def c8cfg0 : PaginationConfig :=
  { page := 1, pageSize := 10, enableCache := some true, cacheTtl := some 0 }

/-- Counterexample to C8 as stated: validation accepts cacheTtl 0, yet the
stored entry expires at now + 300000 rather than now + 0, because
cacheTtl verbar-verbar DEFAULT treats 0 as falsy. -/
theorem cache_store_ttl_zero_cex :
    c8cfg0.cacheTtl = some 0
    ∧ validateConfig c8cfg0 = .ok ()
    ∧ (paginateNormal (fun _ _ => "K") (some (memBackend (some 10) 0)) emptyCache
        [(1 : Int)] c8cfg0).toOption.map
          (fun p => p.2.cache.map (fun q => q.2.expiresAt))
      = some [300000]
    ∧ (300000 : Int) ≠ 0 + 0 := by
  refine ⟨rfl, rfl, ?_, by norm_num⟩
  rfl

end LetMePaginate
